import Mathlib

set_option linter.unusedSectionVars false

/-!
Verification of the CORGI entity/component core: a shallow embedding of
`VectorPool` (include/corgi/vector_pool.h) and `Component<T>`
(include/corgi/component.h), with the spec-level contracts proved against it.

Modelling conventions:
* `size_t` indices are `Nat`; `size_t(-1)` (`kOutOfBounds`) is the explicit
  constant `2^64 - 1`.  Index arithmetic in the source never overflows on the
  paths modelled here, so `Nat` is faithful.
* `UniqueIdType` (`uint32_t`) is `Nat` with an explicit `% 2^32` where the
  source increments the counter.
* `ComponentIndex` (`uint16_t`) values are `Nat` with an explicit `% 2^16`
  where the source performs the `static_cast<ComponentIndex>` narrowing.
* Failed `assert`s are modelled by `Option`: a function that can fail an
  assertion returns `none` exactly on inputs on which the source asserts.
* The embedding is single-pool: a `VectorPoolReference`'s `container_` pointer
  is modelled by the flag `hasContainer` (`false` = default-constructed null
  container), and resolution functions take the referenced pool explicitly.
* C++ member reads/writes are replayed statement by statement, reading the
  fields at the same program points as the source, so aliasing behaves
  identically.
-/

namespace Corgi

/-- Sentinel index used by the source: `static_cast<size_t>(-1)`. -/
def kOutOfBounds : Nat := 2 ^ 64 - 1

/-- Reserved generation value denoting "no allocation"; unique ids start at 1. -/
def kInvalidId : Nat := 0

/-- Index of the used-list head sentinel slot. -/
def kFirstUsed : Nat := 0

/-- Index of the used-list tail sentinel slot. -/
def kLastUsed : Nat := 1

/-- Index of the free-list head sentinel slot. -/
def kFirstFree : Nat := 2

/-- Index of the free-list tail sentinel slot. -/
def kLastFree : Nat := 3

/-- Number of reserved (sentinel) slots at the head of the backing array. -/
def kTotalReserved : Nat := 4

/-- Modulus of the 32-bit generation counter (`UniqueIdType` = `uint32_t`). -/
def idMod : Nat := 2 ^ 32

/-- Embeds `AllocationLocation` from vector_pool.h. -/
inductive AllocationLocation
  | kAddToFront
  | kAddToBack
deriving DecidableEq, Repr

/-- One cell of the backing array: payload plus intrusive list linkage and the
stamped generation (`VectorPool::VectorPoolElement`). -/
structure VectorPoolElement (T : Type) where
  data : T
  next : Nat
  prev : Nat
  unique_id : Nat
deriving DecidableEq, Repr

/-- A default-constructed `VectorPoolElement`. -/
def VectorPoolElement.mkDefault (T : Type) [Inhabited T] : VectorPoolElement T :=
  { data := default, next := kOutOfBounds, prev := kOutOfBounds, unique_id := kInvalidId }

instance (T : Type) [Inhabited T] : Inhabited (VectorPoolElement T) :=
  ⟨VectorPoolElement.mkDefault T⟩

/-- The pool state: backing vector, active-element count, generation counter. -/
structure VectorPool (T : Type) where
  elements_ : List (VectorPoolElement T)
  active_count_ : Nat
  next_unique_id_ : Nat
deriving DecidableEq, Repr

/-- Write through `l[i]` when `i` is in range; out-of-range writes are not
performed by the source (they sit behind asserts that hold on every modelled
path). -/
def listModify {α : Type} (l : List α) (i : Nat) (f : α → α) : List α :=
  match l.get? i with
  | some a => l.set i (f a)
  | none => l

/-- A handle into the pool: `(container, index, captured generation)`.
`hasContainer = false` models a null `container_` pointer. -/
structure VectorPoolReference where
  hasContainer : Bool
  index_ : Nat
  unique_id_ : Nat
deriving DecidableEq, Repr

/-- The default-constructed `VectorPoolReference`: null container, index 0,
captured generation 0. -/
def VectorPoolReference.mkDefault : VectorPoolReference :=
  { hasContainer := false, index_ := 0, unique_id_ := 0 }

/-- Embeds `VectorPool::Iterator`: a bare index plus the (implicit, single) container. -/
structure PoolIterator where
  index_ : Nat
deriving DecidableEq, Repr

/-- The generation-counter advance performed inside `AllocateUniqueId`:
`next_unique_id_++` on a `uint32_t`, then `++` again if it landed on
`kInvalidId`. -/
def stepId (c : Nat) : Nat :=
  let n1 := (c + 1) % idMod
  if n1 = kInvalidId then (n1 + 1) % idMod else n1

namespace VectorPool

variable {T : Type} [Inhabited T]

/-- Embeds `GetElement`: `nullptr` when the index is out of range. -/
def GetElement (p : VectorPool T) (index : Nat) : Option (VectorPoolElement T) :=
  p.elements_.get? index

/-- Read `elements_[i]`, defaulting out of range (only reached behind range
checks or asserts that hold on modelled paths). -/
def elemAt (p : VectorPool T) (i : Nat) : VectorPoolElement T :=
  (p.elements_.get? i).getD (VectorPoolElement.mkDefault T)

/-- Apply an in-place field update to `elements_[i]`. -/
def modifyEl (p : VectorPool T) (i : Nat) (f : VectorPoolElement T → VectorPoolElement T) :
    VectorPool T :=
  { p with elements_ := listModify p.elements_ i f }

/-- Embeds `Size()`: total number of slots (used and free, sentinels included). -/
def size (p : VectorPool T) : Nat := p.elements_.length

/-- Embeds `Clear()`: resize to the four sentinels and reset both lists to empty. -/
def Clear (p : VectorPool T) : VectorPool T :=
  let p1 : VectorPool T :=
    { p with elements_ :=
        p.elements_.take kTotalReserved ++
          List.replicate (kTotalReserved - p.elements_.length) (VectorPoolElement.mkDefault T) }
  let p2 := p1.modifyEl kFirstUsed (fun e => { e with next := kLastUsed })
  let p3 := p2.modifyEl kLastUsed (fun e => { e with prev := kFirstUsed })
  let p4 := p3.modifyEl kFirstFree (fun e => { e with next := kLastFree })
  let p5 := p4.modifyEl kLastFree (fun e => { e with prev := kFirstFree })
  { p5 with active_count_ := 0 }

/-- The default constructor: `active_count_ = 0`, `next_unique_id_ = 1`,
then `Clear()`. -/
def init : VectorPool T :=
  Clear { elements_ := [], active_count_ := 0, next_unique_id_ := kInvalidId + 1 }

/-- Embeds `RemoveFromList(index)`: unlink `elements_[index]` from whichever list it is
currently in.  The removed element's own `next`/`prev` are left untouched. -/
def RemoveFromList (p : VectorPool T) (index : Nat) : VectorPool T :=
  let element := p.elemAt index
  let p1 := p.modifyEl element.prev (fun e => { e with next := element.next })
  p1.modifyEl element.next (fun e => { e with prev := element.prev })

/-- Embeds `AddToListFront(index, start_index)`: splice `index` in right after the list
head sentinel `start_index`. -/
def AddToListFront (p : VectorPool T) (index start_index : Nat) : VectorPool T :=
  let n0 := (p.elemAt start_index).next
  let p1 := p.modifyEl n0 (fun e => { e with prev := index })
  let p2 := p1.modifyEl index (fun e => { e with prev := start_index, next := n0 })
  p2.modifyEl start_index (fun e => { e with next := index })

/-- Embeds `AddToListBack(index, end_index)`: splice `index` in right before the list
tail sentinel `end_index`. -/
def AddToListBack (p : VectorPool T) (index end_index : Nat) : VectorPool T :=
  let p0 := (p.elemAt end_index).prev
  let p1 := p.modifyEl p0 (fun e => { e with next := index })
  let p2 := p1.modifyEl index (fun e => { e with next := end_index, prev := p0 })
  p2.modifyEl end_index (fun e => { e with prev := index })

/-- Embeds `AllocateUniqueId()`: return the current counter, then advance it, skipping
the reserved invalid value on 32-bit wraparound. -/
def AllocateUniqueId (p : VectorPool T) : Nat × VectorPool T :=
  (p.next_unique_id_, { p with next_unique_id_ := stepId p.next_unique_id_ })

/-- Embeds `GetNewElement(alloc_location)`: reuse the head of the free list if
non-empty, else grow the backing array by one; splice the slot into the used
list at the requested end; default-reconstruct the payload; stamp a fresh
generation; return the handle. -/
def GetNewElement (p : VectorPool T) (alloc_location : AllocationLocation) :
    VectorPool T × VectorPoolReference :=
  let step1 : VectorPool T × Nat :=
    if (p.elemAt kFirstFree).next ≠ kLastFree then
      let index := (p.elemAt kFirstFree).next
      (p.RemoveFromList index, index)
    else
      ({ p with elements_ := p.elements_ ++ [VectorPoolElement.mkDefault T] },
        p.elements_.length)
  let p1 := step1.1
  let index := step1.2
  let p2 :=
    match alloc_location with
    | AllocationLocation.kAddToFront => p1.AddToListFront index kFirstUsed
    | AllocationLocation.kAddToBack => p1.AddToListBack index kLastUsed
  let p3 := { p2 with active_count_ := p2.active_count_ + 1 }
  let p4 := p3.modifyEl index (fun e => { e with data := (default : T) })
  let step2 := p4.AllocateUniqueId
  let uid := step2.1
  let p5 := step2.2
  let p6 := p5.modifyEl index (fun e => { e with unique_id := uid })
  (p6, { hasContainer := true, index_ := index, unique_id_ := uid })

/-- Embeds `FreeElement(size_t index)`: asserts the slot is currently allocated
(`unique_id != kInvalidId`), resets the payload, invalidates the generation,
unlinks from the used list and prepends to the free list. -/
def FreeElement (p : VectorPool T) (index : Nat) : Option (VectorPool T) :=
  if (p.elemAt index).unique_id = kInvalidId then
    none
  else
    let p1 := p.modifyEl index
      (fun e => { e with data := (default : T), unique_id := kInvalidId })
    let p2 := p1.RemoveFromList index
    let p3 := p2.AddToListFront index kFirstFree
    some { p3 with active_count_ := p3.active_count_ - 1 }

end VectorPool

namespace VectorPoolReference

variable {T : Type} [Inhabited T]

/-- Embeds `VectorPoolReference(container, index)`: captures the slot's current
generation. -/
def mk' (p : VectorPool T) (index : Nat) : VectorPoolReference :=
  { hasContainer := true, index_ := index,
    unique_id_ := ((p.GetElement index).getD (VectorPoolElement.mkDefault T)).unique_id }

/-- Embeds `operator==`: same container and same index; the captured generations are
not compared. -/
def eq (a b : VectorPoolReference) : Bool :=
  a.hasContainer == b.hasContainer && a.index_ == b.index_

/-- Embeds `operator!=`. -/
def ne (a b : VectorPoolReference) : Bool :=
  !(eq a b)

/-- Embeds `IsValid()`: non-null container and the slot's live generation equals the
captured one. -/
def IsValid (r : VectorPoolReference) (p : VectorPool T) : Bool :=
  r.hasContainer &&
    match p.GetElement r.index_ with
    | some e => e.unique_id == r.unique_id_
    | none => false

/-- Embeds `ToPointer()`: the payload when still valid, `nullptr` otherwise. -/
def ToPointer (r : VectorPoolReference) (p : VectorPool T) : Option T :=
  if r.IsValid p then (p.GetElement r.index_).map (fun e => e.data) else none

end VectorPoolReference

namespace VectorPool

variable {T : Type} [Inhabited T]

/-- Embeds `FreeElement(VectorPoolReference)`: frees only when the handle is still
valid; an invalid handle is silently ignored. -/
def FreeElementRef (p : VectorPool T) (element : VectorPoolReference) :
    Option (VectorPool T) :=
  if element.IsValid p then p.FreeElement element.index_ else some p

/-- Embeds `begin()`: iterator at the first used slot. -/
def beginIt (p : VectorPool T) : PoolIterator := { index_ := (p.elemAt kFirstUsed).next }

/-- Embeds `end()`: iterator at the used-list tail sentinel. -/
def endIt (_p : VectorPool T) : PoolIterator := { index_ := kLastUsed }

/-- Iterator `operator++`: follow the `next` link. -/
def iterNext (p : VectorPool T) (it : PoolIterator) : PoolIterator :=
  { index_ := (p.elemAt it.index_).next }

/-- Embeds `FreeElement(Iterator)`: post-increment first (reading pre-free links),
then free the original element; returns the incremented iterator. -/
def FreeElementIt (p : VectorPool T) (iter : PoolIterator) :
    Option (VectorPool T × PoolIterator) :=
  let temp := iter
  let iter1 := p.iterNext iter
  (p.FreeElement temp.index_).map (fun p1 => (p1, iter1))

/-- Follow `next` links from `i` until `stop`, with fuel; this is the reflexive
closure of iterator `operator++`. -/
def walkAux (p : VectorPool T) (stop : Nat) : Nat → Nat → List Nat
  | 0, _ => []
  | fuel + 1, i => if i = stop then [] else i :: walkAux p stop fuel (p.elemAt i).next

/-- The index sequence visited by forward iteration from `begin()` to `end()`. -/
def usedWalk (p : VectorPool T) : List Nat :=
  walkAux p kLastUsed (p.elements_.length + 1) (p.beginIt).index_

/-- The index sequence of the free list, walked the same way from its sentinel. -/
def freeWalk (p : VectorPool T) : List Nat :=
  walkAux p kLastFree (p.elements_.length + 1) (p.elemAt kFirstFree).next

end VectorPool

end Corgi

namespace Corgi

namespace VectorPool

variable {T : Type} [Inhabited T]

/-- Two slots are linked when the first's `next` and the second's `prev` point
at each other. -/
def linked (p : VectorPool T) (a b : Nat) : Prop :=
  (p.elemAt a).next = b ∧ (p.elemAt b).prev = a

instance (p : VectorPool T) (a b : Nat) : Decidable (linked p a b) := by
  unfold linked; infer_instance

/-- A sequence of slots is a chain when consecutive slots are linked. -/
def chain (p : VectorPool T) (l : List Nat) : Prop :=
  List.Chain' (linked p) l

/-- Executable version of `chain`, used for decidability. -/
def chainB (p : VectorPool T) : List Nat → Bool
  | [] => true
  | [_] => true
  | a :: b :: rest =>
      ((p.elemAt a).next == b && (p.elemAt b).prev == a) && chainB p (b :: rest)

theorem chain_iff_chainB (p : VectorPool T) : ∀ l : List Nat, chain p l ↔ chainB p l = true
  | [] => by simp [chain, chainB]
  | [a] => by simp [chain, chainB]
  | a :: b :: rest => by
    rw [chain, List.chain'_cons, ← chain, chain_iff_chainB p (b :: rest)]
    simp [chainB, linked, and_assoc]

instance (p : VectorPool T) (l : List Nat) : Decidable (chain p l) :=
  decidable_of_iff (chainB p l = true) (chain_iff_chainB p l).symm

/-- The main representation invariant of a `VectorPool`: `used` and `free` are
the slot sequences of the two sentinel-anchored doubly-linked lists, they
partition the non-sentinel slots, allocated/free slots carry valid/invalid
generations, `active_count_` counts the used list, and the generation counter
is a nonzero 32-bit value. -/
structure Inv (p : VectorPool T) (used free : List Nat) : Prop where
  chainU : chain p (kFirstUsed :: used ++ [kLastUsed])
  chainF : chain p (kFirstFree :: free ++ [kLastFree])
  nodup : (used ++ free).Nodup
  bounds : ∀ i ∈ used ++ free, kTotalReserved ≤ i ∧ i < p.elements_.length
  cover : ∀ i < p.elements_.length, kTotalReserved ≤ i → i ∈ used ++ free
  usedAlloc : ∀ i ∈ used, (p.elemAt i).unique_id ≠ kInvalidId
  freeUnalloc : ∀ i ∈ free, (p.elemAt i).unique_id = kInvalidId
  sentinelUnalloc : ∀ i < kTotalReserved, (p.elemAt i).unique_id = kInvalidId
  activeEq : p.active_count_ = used.length
  uidPos : p.next_unique_id_ ≠ kInvalidId
  uidLt : p.next_unique_id_ < idMod
  minSize : kTotalReserved ≤ p.elements_.length

theorem length_listModify {α : Type} (l : List α) (i : Nat) (f : α → α) :
    (listModify l i f).length = l.length := by
  unfold listModify
  cases h : l.get? i <;> simp

theorem get?_listModify_ne {α : Type} (l : List α) (i j : Nat) (f : α → α) (h : j ≠ i) :
    (listModify l i f).get? j = l.get? j := by
  unfold listModify
  cases hg : l.get? i with
  | none => rfl
  | some a => exact List.get?_set_ne _ _ (fun hij => h hij.symm)

theorem get?_listModify_self {α : Type} (l : List α) (i : Nat) (f : α → α)
    (h : i < l.length) :
    (listModify l i f).get? i = (l.get? i).map f := by
  unfold listModify
  cases hg : l.get? i with
  | none => exact absurd (List.get?_eq_none.mp hg) (by omega)
  | some a =>
    show (l.set i (f a)).get? i = Option.map f (some a)
    rw [List.get?_set_eq_of_lt (f a) h]
    rfl

theorem size_modifyEl (p : VectorPool T) (i : Nat) (f : VectorPoolElement T → VectorPoolElement T) :
    (p.modifyEl i f).elements_.length = p.elements_.length :=
  length_listModify _ _ _

theorem elemAt_modifyEl_ne (p : VectorPool T) (i j : Nat)
    (f : VectorPoolElement T → VectorPoolElement T) (h : j ≠ i) :
    (p.modifyEl i f).elemAt j = p.elemAt j := by
  unfold modifyEl elemAt
  rw [get?_listModify_ne _ _ _ _ h]

theorem elemAt_modifyEl_self (p : VectorPool T) (i : Nat)
    (f : VectorPoolElement T → VectorPoolElement T) (h : i < p.elements_.length) :
    (p.modifyEl i f).elemAt i = f (p.elemAt i) := by
  unfold modifyEl elemAt
  rw [get?_listModify_self _ _ _ h]
  cases hg : p.elements_.get? i with
  | none => exact absurd (List.get?_eq_none.mp hg) (by omega)
  | some a => simp

theorem modifyEl_oob (p : VectorPool T) (i : Nat)
    (f : VectorPoolElement T → VectorPoolElement T) (h : p.elements_.length ≤ i) :
    p.modifyEl i f = p := by
  unfold modifyEl listModify
  rw [List.get?_eq_none.mpr h]

/-- Chains only read `next` of every non-final member and `prev` of every
non-initial member, so they transfer between pools that agree there. -/
theorem chain_congr (p q : VectorPool T) :
    ∀ l : List Nat,
      (∀ a ∈ l.dropLast, (q.elemAt a).next = (p.elemAt a).next) →
      (∀ a ∈ l.tail, (q.elemAt a).prev = (p.elemAt a).prev) →
      chain p l → chain q l
  | [], _, _, _ => List.chain'_nil
  | [a], _, _, _ => List.chain'_singleton a
  | a :: b :: rest, hn, hp, hch => by
    rw [chain, List.chain'_cons] at hch ⊢
    refine ⟨⟨?_, ?_⟩, ?_⟩
    · rw [hn a (by simp), hch.1.1]
    · rw [hp b (by simp), hch.1.2]
    · exact chain_congr p q (b :: rest)
        (fun x hx => hn x (by simp at hx ⊢; tauto))
        (fun x hx => hp x (by simp at hx ⊢; tauto))
        hch.2

/-- Chains transfer between pools that agree on all members. -/
theorem chain_congr_elem (p q : VectorPool T) (l : List Nat)
    (h : ∀ a ∈ l, q.elemAt a = p.elemAt a) :
    chain p l → chain q l :=
  chain_congr p q l
    (fun a ha => by rw [h a (List.dropLast_subset l ha)])
    (fun a ha => by rw [h a (List.tail_subset l ha)])

end VectorPool

end Corgi

namespace Corgi

namespace VectorPool

variable {T : Type} [Inhabited T]

theorem uid_elemAt_modifyEl (p : VectorPool T) (i j : Nat)
    (f : VectorPoolElement T → VectorPoolElement T)
    (hf : ∀ e, (f e).unique_id = e.unique_id) :
    ((p.modifyEl i f).elemAt j).unique_id = (p.elemAt j).unique_id := by
  by_cases hj : j = i
  · subst hj
    by_cases hlen : j < p.elements_.length
    · rw [elemAt_modifyEl_self p j f hlen, hf]
    · rw [modifyEl_oob p j f (by omega)]
  · rw [elemAt_modifyEl_ne p i j f hj]

theorem data_elemAt_modifyEl (p : VectorPool T) (i j : Nat)
    (f : VectorPoolElement T → VectorPoolElement T)
    (hf : ∀ e, (f e).data = e.data) :
    ((p.modifyEl i f).elemAt j).data = (p.elemAt j).data := by
  by_cases hj : j = i
  · subst hj
    by_cases hlen : j < p.elements_.length
    · rw [elemAt_modifyEl_self p j f hlen, hf]
    · rw [modifyEl_oob p j f (by omega)]
  · rw [elemAt_modifyEl_ne p i j f hj]

theorem size_RemoveFromList (p : VectorPool T) (index : Nat) :
    (p.RemoveFromList index).elements_.length = p.elements_.length := by
  unfold RemoveFromList
  rw [size_modifyEl, size_modifyEl]

theorem size_AddToListFront (p : VectorPool T) (index start_index : Nat) :
    (p.AddToListFront index start_index).elements_.length = p.elements_.length := by
  unfold AddToListFront
  rw [size_modifyEl, size_modifyEl, size_modifyEl]

theorem size_AddToListBack (p : VectorPool T) (index end_index : Nat) :
    (p.AddToListBack index end_index).elements_.length = p.elements_.length := by
  unfold AddToListBack
  rw [size_modifyEl, size_modifyEl, size_modifyEl]

theorem uid_RemoveFromList (p : VectorPool T) (index j : Nat) :
    ((p.RemoveFromList index).elemAt j).unique_id = (p.elemAt j).unique_id := by
  unfold RemoveFromList
  exact (uid_elemAt_modifyEl (p.modifyEl (p.elemAt index).prev
      (fun e => { e with next := (p.elemAt index).next })) (p.elemAt index).next j
      (fun e => { e with prev := (p.elemAt index).prev })
      (fun e => rfl)).trans
    (uid_elemAt_modifyEl p (p.elemAt index).prev j
      (fun e => { e with next := (p.elemAt index).next }) (fun e => rfl))

theorem uid_AddToListFront (p : VectorPool T) (index start_index j : Nat) :
    ((p.AddToListFront index start_index).elemAt j).unique_id = (p.elemAt j).unique_id := by
  unfold AddToListFront
  exact ((uid_elemAt_modifyEl ((p.modifyEl (p.elemAt start_index).next
      (fun e => { e with prev := index })).modifyEl index
      (fun e => { e with prev := start_index, next := (p.elemAt start_index).next }))
      start_index j (fun e => { e with next := index }) (fun e => rfl)).trans
    (uid_elemAt_modifyEl (p.modifyEl (p.elemAt start_index).next
      (fun e => { e with prev := index })) index j
      (fun e => { e with prev := start_index, next := (p.elemAt start_index).next })
      (fun e => rfl))).trans
    (uid_elemAt_modifyEl p (p.elemAt start_index).next j
      (fun e => { e with prev := index }) (fun e => rfl))

theorem uid_AddToListBack (p : VectorPool T) (index end_index j : Nat) :
    ((p.AddToListBack index end_index).elemAt j).unique_id = (p.elemAt j).unique_id := by
  unfold AddToListBack
  exact ((uid_elemAt_modifyEl ((p.modifyEl (p.elemAt end_index).prev
      (fun e => { e with next := index })).modifyEl index
      (fun e => { e with next := end_index, prev := (p.elemAt end_index).prev }))
      end_index j (fun e => { e with prev := index }) (fun e => rfl)).trans
    (uid_elemAt_modifyEl (p.modifyEl (p.elemAt end_index).prev
      (fun e => { e with next := index })) index j
      (fun e => { e with next := end_index, prev := (p.elemAt end_index).prev })
      (fun e => rfl))).trans
    (uid_elemAt_modifyEl p (p.elemAt end_index).prev j
      (fun e => { e with next := index }) (fun e => rfl))

theorem data_RemoveFromList (p : VectorPool T) (index j : Nat) :
    ((p.RemoveFromList index).elemAt j).data = (p.elemAt j).data := by
  unfold RemoveFromList
  exact (data_elemAt_modifyEl (p.modifyEl (p.elemAt index).prev
      (fun e => { e with next := (p.elemAt index).next })) (p.elemAt index).next j
      (fun e => { e with prev := (p.elemAt index).prev })
      (fun e => rfl)).trans
    (data_elemAt_modifyEl p (p.elemAt index).prev j
      (fun e => { e with next := (p.elemAt index).next }) (fun e => rfl))

theorem data_AddToListFront (p : VectorPool T) (index start_index j : Nat) :
    ((p.AddToListFront index start_index).elemAt j).data = (p.elemAt j).data := by
  unfold AddToListFront
  exact ((data_elemAt_modifyEl ((p.modifyEl (p.elemAt start_index).next
      (fun e => { e with prev := index })).modifyEl index
      (fun e => { e with prev := start_index, next := (p.elemAt start_index).next }))
      start_index j (fun e => { e with next := index }) (fun e => rfl)).trans
    (data_elemAt_modifyEl (p.modifyEl (p.elemAt start_index).next
      (fun e => { e with prev := index })) index j
      (fun e => { e with prev := start_index, next := (p.elemAt start_index).next })
      (fun e => rfl))).trans
    (data_elemAt_modifyEl p (p.elemAt start_index).next j
      (fun e => { e with prev := index }) (fun e => rfl))

theorem data_AddToListBack (p : VectorPool T) (index end_index j : Nat) :
    ((p.AddToListBack index end_index).elemAt j).data = (p.elemAt j).data := by
  unfold AddToListBack
  exact ((data_elemAt_modifyEl ((p.modifyEl (p.elemAt end_index).prev
      (fun e => { e with next := index })).modifyEl index
      (fun e => { e with next := end_index, prev := (p.elemAt end_index).prev }))
      end_index j (fun e => { e with prev := index }) (fun e => rfl)).trans
    (data_elemAt_modifyEl (p.modifyEl (p.elemAt end_index).prev
      (fun e => { e with next := index })) index j
      (fun e => { e with next := end_index, prev := (p.elemAt end_index).prev })
      (fun e => rfl))).trans
    (data_elemAt_modifyEl p (p.elemAt end_index).prev j
      (fun e => { e with next := index }) (fun e => rfl))

theorem elemAt_RemoveFromList_ne (p : VectorPool T) (index j : Nat)
    (h1 : j ≠ (p.elemAt index).prev) (h2 : j ≠ (p.elemAt index).next) :
    ((p.RemoveFromList index).elemAt j) = p.elemAt j := by
  unfold RemoveFromList
  rw [elemAt_modifyEl_ne _ _ _ _ h2, elemAt_modifyEl_ne _ _ _ _ h1]

theorem elemAt_AddToListFront_ne (p : VectorPool T) (index start_index j : Nat)
    (h1 : j ≠ (p.elemAt start_index).next) (h2 : j ≠ index) (h3 : j ≠ start_index) :
    ((p.AddToListFront index start_index).elemAt j) = p.elemAt j := by
  unfold AddToListFront
  rw [elemAt_modifyEl_ne _ _ _ _ h3, elemAt_modifyEl_ne _ _ _ _ h2,
    elemAt_modifyEl_ne _ _ _ _ h1]

theorem elemAt_AddToListBack_ne (p : VectorPool T) (index end_index j : Nat)
    (h1 : j ≠ (p.elemAt end_index).prev) (h2 : j ≠ index) (h3 : j ≠ end_index) :
    ((p.AddToListBack index end_index).elemAt j) = p.elemAt j := by
  unfold AddToListBack
  rw [elemAt_modifyEl_ne _ _ _ _ h3, elemAt_modifyEl_ne _ _ _ _ h2,
    elemAt_modifyEl_ne _ _ _ _ h1]

end VectorPool

end Corgi

namespace Corgi

namespace VectorPool

variable {T : Type} [Inhabited T]

theorem elemAt_AddToListFront_start (p : VectorPool T) (x s : Nat)
    (hs : s < p.elements_.length) (hsx : s ≠ x) (hsn : s ≠ (p.elemAt s).next) :
    (p.AddToListFront x s).elemAt s = { p.elemAt s with next := x } := by
  unfold AddToListFront
  dsimp only
  rw [elemAt_modifyEl_self _ s _ (by rw [size_modifyEl, size_modifyEl]; exact hs),
    elemAt_modifyEl_ne _ _ _ _ hsx, elemAt_modifyEl_ne _ _ _ _ hsn]

theorem elemAt_AddToListFront_index (p : VectorPool T) (x s : Nat)
    (hx : x < p.elements_.length) (hxs : x ≠ s) (hxn : x ≠ (p.elemAt s).next) :
    (p.AddToListFront x s).elemAt x =
      { p.elemAt x with prev := s, next := (p.elemAt s).next } := by
  unfold AddToListFront
  dsimp only
  rw [elemAt_modifyEl_ne _ _ _ _ hxs,
    elemAt_modifyEl_self _ x _ (by rw [size_modifyEl]; exact hx),
    elemAt_modifyEl_ne _ _ _ _ hxn]

theorem elemAt_AddToListFront_head (p : VectorPool T) (x s : Nat)
    (hn : (p.elemAt s).next < p.elements_.length)
    (hns : (p.elemAt s).next ≠ s) (hnx : (p.elemAt s).next ≠ x) :
    (p.AddToListFront x s).elemAt (p.elemAt s).next =
      { p.elemAt (p.elemAt s).next with prev := x } := by
  unfold AddToListFront
  dsimp only
  rw [elemAt_modifyEl_ne _ _ _ _ hns, elemAt_modifyEl_ne _ _ _ _ hnx,
    elemAt_modifyEl_self _ _ _ hn]

/-- Splicing a fresh slot in right after the head sentinel turns the chain
`s :: l ++ [e]` into `s :: x :: l ++ [e]`. -/
theorem chain_AddToListFront (p : VectorPool T) (x s e : Nat) (l : List Nat)
    (hch : chain p (s :: (l ++ [e])))
    (hnd : (s :: (l ++ [e])).Nodup)
    (hx : x ∉ s :: (l ++ [e]))
    (hxlen : x < p.elements_.length)
    (hslen : s < p.elements_.length)
    (hmlen : ∀ i ∈ l ++ [e], i < p.elements_.length) :
    chain (p.AddToListFront x s) (s :: x :: (l ++ [e])) := by
  obtain ⟨hd, tl, hht⟩ : ∃ hd tl, l ++ [e] = hd :: tl := by
    cases l with
    | nil => exact ⟨e, [], rfl⟩
    | cons a t => exact ⟨a, t ++ [e], rfl⟩
  rw [hht] at hch hnd hx hmlen ⊢
  rw [chain, List.chain'_cons] at hch
  have hn0 : (p.elemAt s).next = hd := hch.1.1
  have hs_nm : s ∉ hd :: tl := (List.nodup_cons.mp hnd).1
  have hhd_nm : hd ∉ tl := (List.nodup_cons.mp (List.nodup_cons.mp hnd).2).1
  obtain ⟨hxs, hxhd, hxtl⟩ : x ≠ s ∧ x ≠ hd ∧ x ∉ tl := by
    simpa [List.mem_cons, not_or] using hx
  have hhdlen : hd < p.elements_.length := hmlen hd (List.mem_cons_self hd tl)
  have hshd : s ≠ hd := fun h => hs_nm (h ▸ List.mem_cons_self hd tl)
  have Hs : (p.AddToListFront x s).elemAt s = { p.elemAt s with next := x } :=
    elemAt_AddToListFront_start p x s hslen hxs.symm (by rw [hn0]; exact hshd)
  have Hx : (p.AddToListFront x s).elemAt x =
      { p.elemAt x with prev := s, next := hd } := by
    rw [elemAt_AddToListFront_index p x s hxlen hxs (hn0 ▸ hxhd), hn0]
  have Hhd : (p.AddToListFront x s).elemAt hd = { p.elemAt hd with prev := x } := by
    have h1 := elemAt_AddToListFront_head p x s (by rw [hn0]; exact hhdlen)
      (by rw [hn0]; exact hshd.symm) (by rw [hn0]; exact (Ne.symm hxhd))
    rw [hn0] at h1
    exact h1
  have Hother : ∀ j, j ≠ s → j ≠ x → j ≠ hd →
      (p.AddToListFront x s).elemAt j = p.elemAt j := fun j h1 h2 h3 =>
    elemAt_AddToListFront_ne p x s j (by rw [hn0]; exact h3) h2 h1
  rw [chain, List.chain'_cons, List.chain'_cons]
  refine ⟨⟨?_, ?_⟩, ⟨?_, ?_⟩, ?_⟩
  · rw [Hs]
  · rw [Hx]
  · rw [Hx]
  · rw [Hhd]
  · refine chain_congr p _ (hd :: tl) ?_ ?_ hch.2
    · intro a ha
      have ha' : a ∈ hd :: tl := List.dropLast_subset _ ha
      rcases List.mem_cons.mp ha' with h | h
      · subst h; rw [Hhd]
      · rw [Hother a (fun hh => hs_nm (hh ▸ ha')) (fun hh => hxtl (hh ▸ h))
          (fun hh => hhd_nm (hh ▸ h))]
    · intro a ha
      have ha' : a ∈ tl := ha
      rw [Hother a (fun hh => hs_nm (hh ▸ List.mem_cons_of_mem hd ha'))
        (fun hh => hxtl (hh ▸ ha')) (fun hh => hhd_nm (hh ▸ ha'))]

end VectorPool

end Corgi

namespace Corgi

namespace VectorPool

variable {T : Type} [Inhabited T]

theorem ne_getLast_of_mem_dropLast {l : List Nat} (h : l ≠ []) (hnd : l.Nodup)
    (a : Nat) (ha : a ∈ l.dropLast) : a ≠ l.getLast h := by
  intro hae
  have hsplit := List.dropLast_append_getLast h
  rw [← hsplit] at hnd
  rw [List.nodup_append] at hnd
  exact hnd.2.2 ha (by rw [hae]; simp)

theorem elemAt_AddToListBack_endEl (p : VectorPool T) (x e : Nat)
    (he : e < p.elements_.length) (hex : e ≠ x) (hep : e ≠ (p.elemAt e).prev) :
    (p.AddToListBack x e).elemAt e = { p.elemAt e with prev := x } := by
  unfold AddToListBack
  dsimp only
  rw [elemAt_modifyEl_self _ e _ (by rw [size_modifyEl, size_modifyEl]; exact he),
    elemAt_modifyEl_ne _ _ _ _ hex, elemAt_modifyEl_ne _ _ _ _ hep]

theorem elemAt_AddToListBack_index (p : VectorPool T) (x e : Nat)
    (hx : x < p.elements_.length) (hxe : x ≠ e) (hxp : x ≠ (p.elemAt e).prev) :
    (p.AddToListBack x e).elemAt x =
      { p.elemAt x with next := e, prev := (p.elemAt e).prev } := by
  unfold AddToListBack
  dsimp only
  rw [elemAt_modifyEl_ne _ _ _ _ hxe,
    elemAt_modifyEl_self _ x _ (by rw [size_modifyEl]; exact hx),
    elemAt_modifyEl_ne _ _ _ _ hxp]

theorem elemAt_AddToListBack_last (p : VectorPool T) (x e : Nat)
    (hp : (p.elemAt e).prev < p.elements_.length)
    (hpe : (p.elemAt e).prev ≠ e) (hpx : (p.elemAt e).prev ≠ x) :
    (p.AddToListBack x e).elemAt (p.elemAt e).prev =
      { p.elemAt (p.elemAt e).prev with next := x } := by
  unfold AddToListBack
  dsimp only
  rw [elemAt_modifyEl_ne _ _ _ _ hpe, elemAt_modifyEl_ne _ _ _ _ hpx,
    elemAt_modifyEl_self _ _ _ hp]

/-- Splicing a fresh slot in right before the tail sentinel turns the chain
`s :: l ++ [e]` into `s :: l ++ [x] ++ [e]`. -/
theorem chain_AddToListBack (p : VectorPool T) (x s e : Nat) (l : List Nat)
    (hch : chain p (s :: (l ++ [e])))
    (hnd : (s :: (l ++ [e])).Nodup)
    (hx : x ∉ s :: (l ++ [e]))
    (hxlen : x < p.elements_.length)
    (hslen : s < p.elements_.length)
    (hmlen : ∀ i ∈ l ++ [e], i < p.elements_.length) :
    chain (p.AddToListBack x e) (s :: ((l ++ [x]) ++ [e])) := by
  have hcons : s :: (l ++ [e]) = (s :: l) ++ [e] := by simp
  rw [hcons] at hch hnd hx
  have hne : s :: l ≠ [] := List.cons_ne_nil s l
  set la := (s :: l).getLast hne with hla
  rw [chain, List.chain'_append] at hch
  obtain ⟨h1, _, h3⟩ := hch
  have hlink : linked p la e := by
    refine h3 la ?_ e rfl
    rw [List.getLast?_eq_getLast _ hne]
    exact Option.mem_some_self _
  have hp0 : (p.elemAt e).prev = la := hlink.2
  rw [List.nodup_append] at hnd
  obtain ⟨hndsl, _, hdisj⟩ := hnd
  have hem : e ∉ s :: l := fun hh => hdisj hh (by simp)
  have hlam : la ∈ s :: l := List.getLast_mem hne
  have hlae : la ≠ e := fun hh => hem (hh ▸ hlam)
  obtain ⟨hxsl, hxe⟩ : x ∉ s :: l ∧ x ≠ e := by
    constructor
    · exact fun hh => hx (List.mem_append_left _ hh)
    · exact fun hh => hx (List.mem_append_right _ (by simp [hh]))
  have hlax : la ≠ x := fun hh => hxsl (hh ▸ hlam)
  have helen : e < p.elements_.length := hmlen e (by simp)
  have hlalen : la < p.elements_.length := by
    rcases List.mem_cons.mp hlam with hh | hh
    · rw [hh]; exact hslen
    · exact hmlen la (List.mem_append_left _ hh)
  have He : (p.AddToListBack x e).elemAt e = { p.elemAt e with prev := x } :=
    elemAt_AddToListBack_endEl p x e helen hxe.symm (by rw [hp0]; exact hlae.symm)
  have Hx : (p.AddToListBack x e).elemAt x =
      { p.elemAt x with next := e, prev := la } := by
    rw [elemAt_AddToListBack_index p x e hxlen hxe (by rw [hp0]; exact hlax.symm), hp0]
  have Hla : (p.AddToListBack x e).elemAt la = { p.elemAt la with next := x } := by
    have h4 := elemAt_AddToListBack_last p x e (by rw [hp0]; exact hlalen)
      (by rw [hp0]; exact hlae) (by rw [hp0]; exact hlax)
    rw [hp0] at h4
    exact h4
  have Hother : ∀ j, j ≠ e → j ≠ x → j ≠ la →
      (p.AddToListBack x e).elemAt j = p.elemAt j := fun j h1' h2' h3' =>
    elemAt_AddToListBack_ne p x e j (by rw [hp0]; exact h3') h2' h1'
  have hgoal : s :: ((l ++ [x]) ++ [e]) = (s :: l) ++ [x, e] := by simp
  rw [hgoal, chain, List.chain'_append]
  refine ⟨?_, ?_, ?_⟩
  · refine chain_congr p _ (s :: l) ?_ ?_ h1
    · intro a ha
      have ha' : a ∈ s :: l := List.dropLast_subset _ ha
      have hala : a ≠ la := ne_getLast_of_mem_dropLast hne hndsl a ha
      rw [Hother a (fun hh => hem (hh ▸ ha')) (fun hh => hxsl (hh ▸ ha')) hala]
    · intro a ha
      have ha' : a ∈ s :: l := List.tail_subset _ ha
      by_cases hala : a = la
      · rw [hala, Hla]
      · rw [Hother a (fun hh => hem (hh ▸ ha')) (fun hh => hxsl (hh ▸ ha')) hala]
  · rw [List.chain'_cons]
    exact ⟨⟨by rw [Hx], by rw [He]⟩, List.chain'_singleton e⟩
  · intro a ha b hb
    rw [List.getLast?_eq_getLast _ hne] at ha
    have ha' : a = la := by simpa using ha.symm
    have hb' : b = x := by simpa using hb.symm
    rw [ha', hb']
    exact ⟨by rw [Hla], by rw [Hx]⟩

theorem elemAt_RemoveFromList_prevEl (p : VectorPool T) (x : Nat)
    (hA : (p.elemAt x).prev < p.elements_.length)
    (hAB : (p.elemAt x).prev ≠ (p.elemAt x).next) :
    (p.RemoveFromList x).elemAt (p.elemAt x).prev =
      { p.elemAt (p.elemAt x).prev with next := (p.elemAt x).next } := by
  unfold RemoveFromList
  dsimp only
  rw [elemAt_modifyEl_ne _ _ _ _ hAB, elemAt_modifyEl_self _ _ _ hA]

theorem elemAt_RemoveFromList_nextEl (p : VectorPool T) (x : Nat)
    (hB : (p.elemAt x).next < p.elements_.length)
    (hBA : (p.elemAt x).next ≠ (p.elemAt x).prev) :
    (p.RemoveFromList x).elemAt (p.elemAt x).next =
      { p.elemAt (p.elemAt x).next with prev := (p.elemAt x).prev } := by
  unfold RemoveFromList
  dsimp only
  rw [elemAt_modifyEl_self _ _ _ (by rw [size_modifyEl]; exact hB),
    elemAt_modifyEl_ne _ _ _ _ hBA]

/-- Unlinking a slot removes it from its chain and reconnects its neighbours. -/
theorem chain_RemoveFromList (p : VectorPool T) (x s e : Nat) (l1 l2 : List Nat)
    (hch : chain p (s :: (l1 ++ x :: (l2 ++ [e]))))
    (hnd : (s :: (l1 ++ x :: (l2 ++ [e]))).Nodup)
    (hslen : s < p.elements_.length)
    (hmlen : ∀ i ∈ l1 ++ x :: (l2 ++ [e]), i < p.elements_.length) :
    chain (p.RemoveFromList x) (s :: (l1 ++ (l2 ++ [e]))) := by
  have hcons : s :: (l1 ++ x :: (l2 ++ [e])) = (s :: l1) ++ x :: (l2 ++ [e]) := by simp
  rw [hcons] at hch hnd
  have hne1 : s :: l1 ≠ [] := List.cons_ne_nil s l1
  set A := (s :: l1).getLast hne1 with hAdef
  rw [chain, List.chain'_append] at hch
  obtain ⟨h1, h2, h3⟩ := hch
  have hlinkAx : linked p A x := by
    refine h3 A ?_ x rfl
    rw [List.getLast?_eq_getLast _ hne1]
    exact Option.mem_some_self _
  obtain ⟨B, tl, hbt⟩ : ∃ B tl, l2 ++ [e] = B :: tl := by
    cases l2 with
    | nil => exact ⟨e, [], rfl⟩
    | cons a t => exact ⟨a, t ++ [e], rfl⟩
  rw [hbt, List.chain'_cons] at h2
  have hA : (p.elemAt x).prev = A := hlinkAx.2
  have hB : (p.elemAt x).next = B := h2.1.1
  rw [List.nodup_append] at hnd
  obtain ⟨nd1, nd2, disj⟩ := hnd
  have hAm : A ∈ s :: l1 := List.getLast_mem hne1
  have hBm : B ∈ l2 ++ [e] := by rw [hbt]; exact List.mem_cons_self B tl
  have hAB : A ≠ B := fun hh =>
    disj hAm (hh ▸ List.mem_cons_of_mem x hBm)
  have hAx : A ≠ x := fun hh => disj hAm (hh ▸ List.mem_cons_self x _)
  have hxB : x ∉ B :: tl := by
    rw [← hbt]
    exact fun hh => (List.nodup_cons.mp nd2).1 (hbt ▸ hh)
  have hndBtl : (B :: tl).Nodup := by
    rw [← hbt]
    exact hbt ▸ (List.nodup_cons.mp nd2).2
  have hAlen : A < p.elements_.length := by
    rcases List.mem_cons.mp hAm with hh | hh
    · rw [hh]; exact hslen
    · exact hmlen A (List.mem_append_left _ hh)
  have hBlen : B < p.elements_.length :=
    hmlen B (List.mem_append_right _ (List.mem_cons_of_mem x hBm))
  have HA : (p.RemoveFromList x).elemAt A = { p.elemAt A with next := B } := by
    have h4 := elemAt_RemoveFromList_prevEl p x (by rw [hA]; exact hAlen)
      (by rw [hA, hB]; exact hAB)
    rw [hA, hB] at h4
    exact h4
  have HB : (p.RemoveFromList x).elemAt B = { p.elemAt B with prev := A } := by
    have h4 := elemAt_RemoveFromList_nextEl p x (by rw [hB]; exact hBlen)
      (by rw [hA, hB]; exact hAB.symm)
    rw [hA, hB] at h4
    exact h4
  have Hother : ∀ j, j ≠ A → j ≠ B →
      (p.RemoveFromList x).elemAt j = p.elemAt j := fun j h1' h2' =>
    elemAt_RemoveFromList_ne p x j (by rw [hA]; exact h1') (by rw [hB]; exact h2')
  have hgoal : s :: (l1 ++ (l2 ++ [e])) = (s :: l1) ++ (l2 ++ [e]) := by simp
  rw [hgoal, chain, List.chain'_append]
  refine ⟨?_, ?_, ?_⟩
  · refine chain_congr p _ (s :: l1) ?_ ?_ h1
    · intro a ha
      have ha' : a ∈ s :: l1 := List.dropLast_subset _ ha
      have haA : a ≠ A := ne_getLast_of_mem_dropLast hne1 nd1 a ha
      have haB : a ≠ B := fun hh => disj ha' (hh ▸ List.mem_cons_of_mem x hBm)
      rw [Hother a haA haB]
    · intro a ha
      have ha' : a ∈ s :: l1 := List.tail_subset _ ha
      have haB : a ≠ B := fun hh => disj ha' (hh ▸ List.mem_cons_of_mem x hBm)
      by_cases haA : a = A
      · rw [haA, HA]
      · rw [Hother a haA haB]
  · rw [hbt]
    refine chain_congr p _ (B :: tl) ?_ ?_ h2.2
    · intro a ha
      have ha' : a ∈ B :: tl := List.dropLast_subset _ ha
      have haA : a ≠ A := fun hh =>
        disj (hh ▸ hAm) (List.mem_cons_of_mem x (hbt ▸ ha'))
      by_cases haB : a = B
      · rw [haB, HB]
      · rw [Hother a haA haB]
    · intro a ha
      have ha' : a ∈ tl := ha
      have haA : a ≠ A := fun hh =>
        disj (hh ▸ hAm) (List.mem_cons_of_mem x (hbt ▸ List.mem_cons_of_mem B ha'))
      have haB : a ≠ B := fun hh => (List.nodup_cons.mp hndBtl).1 (hh ▸ ha')
      rw [Hother a haA haB]
  · intro a ha b hb
    rw [List.getLast?_eq_getLast _ hne1] at ha
    have ha' : a = A := by simpa using ha.symm
    have hb' : b = B := by
      rw [hbt] at hb
      simpa using hb.symm
    rw [ha', hb']
    exact ⟨by rw [HA], by rw [HB]⟩

theorem next_elemAt_modifyEl (p : VectorPool T) (i j : Nat)
    (f : VectorPoolElement T → VectorPoolElement T)
    (hf : ∀ e, (f e).next = e.next) :
    ((p.modifyEl i f).elemAt j).next = (p.elemAt j).next := by
  by_cases hj : j = i
  · subst hj
    by_cases hlen : j < p.elements_.length
    · rw [elemAt_modifyEl_self p j f hlen, hf]
    · rw [modifyEl_oob p j f (by omega)]
  · rw [elemAt_modifyEl_ne p i j f hj]

theorem prev_elemAt_modifyEl (p : VectorPool T) (i j : Nat)
    (f : VectorPoolElement T → VectorPoolElement T)
    (hf : ∀ e, (f e).prev = e.prev) :
    ((p.modifyEl i f).elemAt j).prev = (p.elemAt j).prev := by
  by_cases hj : j = i
  · subst hj
    by_cases hlen : j < p.elements_.length
    · rw [elemAt_modifyEl_self p j f hlen, hf]
    · rw [modifyEl_oob p j f (by omega)]
  · rw [elemAt_modifyEl_ne p i j f hj]

/-- The common tail of `GetNewElement` after the slot has been spliced into the
used list: bump `active_count_`, default-reconstruct the payload in place and
stamp a fresh generation. -/
def finishAlloc (p2 : VectorPool T) (x : Nat) : VectorPool T :=
  let p3 : VectorPool T := { p2 with active_count_ := p2.active_count_ + 1 }
  let p4 := p3.modifyEl x (fun e => { e with data := (default : T) })
  let p5 := (p4.AllocateUniqueId).2
  p5.modifyEl x (fun e => { e with unique_id := (p4.AllocateUniqueId).1 })

/-- The used-list splice step of `GetNewElement`. -/
def spliceUsed (p1 : VectorPool T) (loc : AllocationLocation) (x : Nat) : VectorPool T :=
  match loc with
  | AllocationLocation.kAddToFront => p1.AddToListFront x kFirstUsed
  | AllocationLocation.kAddToBack => p1.AddToListBack x kLastUsed

theorem GetNewElement_reuse (p : VectorPool T) (loc : AllocationLocation) (x : Nat)
    (hx : (p.elemAt kFirstFree).next = x) (hne : x ≠ kLastFree) :
    p.GetNewElement loc =
      (finishAlloc (spliceUsed (p.RemoveFromList x) loc x) x,
        { hasContainer := true, index_ := x, unique_id_ := p.next_unique_id_ }) := by
  unfold GetNewElement
  rw [hx, if_pos hne]
  cases loc <;> rfl

theorem GetNewElement_grow (p : VectorPool T) (loc : AllocationLocation)
    (hx : (p.elemAt kFirstFree).next = kLastFree) :
    p.GetNewElement loc =
      (finishAlloc
          (spliceUsed
            { p with elements_ := p.elements_ ++ [VectorPoolElement.mkDefault T] }
            loc p.elements_.length)
          p.elements_.length,
        { hasContainer := true, index_ := p.elements_.length,
          unique_id_ := p.next_unique_id_ }) := by
  unfold GetNewElement
  rw [hx, if_neg (by simp)]
  cases loc <;> rfl

theorem elemAt_finishAlloc_ne (p2 : VectorPool T) (x j : Nat) (hj : j ≠ x) :
    ((finishAlloc p2 x).elemAt j) = p2.elemAt j := by
  unfold finishAlloc AllocateUniqueId
  dsimp only
  rw [elemAt_modifyEl_ne _ _ _ _ hj]
  show ((p2.modifyEl x _).elemAt j) = _
  rw [elemAt_modifyEl_ne _ _ _ _ hj]

theorem finishAlloc_counter (p2 : VectorPool T) (x : Nat) :
    (finishAlloc p2 x).next_unique_id_ = stepId p2.next_unique_id_ := rfl

theorem finishAlloc_active (p2 : VectorPool T) (x : Nat) :
    (finishAlloc p2 x).active_count_ = p2.active_count_ + 1 := by
  unfold finishAlloc AllocateUniqueId modifyEl
  dsimp only

theorem finishAlloc_length (p2 : VectorPool T) (x : Nat) :
    (finishAlloc p2 x).elements_.length = p2.elements_.length := by
  unfold finishAlloc AllocateUniqueId modifyEl
  dsimp only
  rw [length_listModify, length_listModify]

theorem elemAt_finishAlloc_self (p2 : VectorPool T) (x : Nat) (hx : x < p2.elements_.length) :
    ((finishAlloc p2 x).elemAt x) =
      { p2.elemAt x with data := (default : T), unique_id := p2.next_unique_id_ } := by
  have hp4 : ((({ p2 with active_count_ := p2.active_count_ + 1 } : VectorPool T).modifyEl x
      (fun e => { e with data := (default : T) })).elemAt x) =
      { p2.elemAt x with data := (default : T) } :=
    elemAt_modifyEl_self _ _ _ hx
  unfold finishAlloc AllocateUniqueId
  dsimp only
  rw [elemAt_modifyEl_self _ _ _ (by rw [size_modifyEl]; exact hx)]
  show ({ (({ p2 with active_count_ := p2.active_count_ + 1 } : VectorPool T).modifyEl x
      (fun e => { e with data := (default : T) })).elemAt x
        with unique_id := p2.next_unique_id_ } : VectorPoolElement T) = _
  rw [hp4]

theorem stepId_pos (c : Nat) : stepId c ≠ kInvalidId ∧ stepId c < idMod := by
  have h32 : idMod = 4294967296 := by norm_num [idMod]
  unfold stepId kInvalidId
  rw [h32]
  dsimp only
  split
  · omega
  · next h => exact ⟨h, Nat.mod_lt _ (by norm_num)⟩

theorem Inv.nodupUsed {p : VectorPool T} {used free : List Nat} (h : Inv p used free) :
    used.Nodup :=
  h.nodup.of_append_left

theorem Inv.nodupFree {p : VectorPool T} {used free : List Nat} (h : Inv p used free) :
    free.Nodup :=
  h.nodup.of_append_right

theorem Inv.disjUF {p : VectorPool T} {used free : List Nat} (h : Inv p used free) :
    ∀ a ∈ used, a ∉ free := by
  have h1 := h.nodup
  rw [List.nodup_append] at h1
  exact fun a ha hf => h1.2.2 ha hf

theorem Inv.nodupChainU {p : VectorPool T} {used free : List Nat} (h : Inv p used free) :
    (kFirstUsed :: (used ++ [kLastUsed])).Nodup := by
  rw [List.nodup_cons, List.nodup_append]
  refine ⟨?_, h.nodupUsed, List.nodup_singleton _, ?_⟩
  · intro hmem
    rcases List.mem_append.mp hmem with hm | hm
    · have := (h.bounds kFirstUsed (List.mem_append_left _ hm)).1
      simp [kTotalReserved, kFirstUsed] at this
    · simp [kFirstUsed, kLastUsed] at hm
  · intro a ha hb
    have h4 := (h.bounds a (List.mem_append_left _ ha)).1
    have : a = kLastUsed := by simpa using hb
    rw [this] at h4
    simp [kTotalReserved, kLastUsed] at h4

theorem Inv.nodupChainF {p : VectorPool T} {used free : List Nat} (h : Inv p used free) :
    (kFirstFree :: (free ++ [kLastFree])).Nodup := by
  rw [List.nodup_cons, List.nodup_append]
  refine ⟨?_, h.nodupFree, List.nodup_singleton _, ?_⟩
  · intro hmem
    rcases List.mem_append.mp hmem with hm | hm
    · have := (h.bounds kFirstFree (List.mem_append_right _ hm)).1
      simp [kTotalReserved, kFirstFree] at this
    · simp [kFirstFree, kLastFree] at hm
  · intro a ha hb
    have h4 := (h.bounds a (List.mem_append_right _ ha)).1
    have : a = kLastFree := by simpa using hb
    rw [this] at h4
    simp [kTotalReserved, kLastFree] at h4

/-- Assemble the pool invariant after the generation-stamping tail of
`GetNewElement`, given that the slot `x` has already been spliced into the
used chain. -/
theorem Inv_assemble (p2 : VectorPool T) (x : Nat) (used' free' : List Nat)
    (hchU : chain p2 (kFirstUsed :: (used' ++ [kLastUsed])))
    (hchF : chain p2 (kFirstFree :: (free' ++ [kLastFree])))
    (hnd : (used' ++ free').Nodup)
    (hbounds : ∀ i ∈ used' ++ free', kTotalReserved ≤ i ∧ i < p2.elements_.length)
    (hcover : ∀ i < p2.elements_.length, kTotalReserved ≤ i → i ∈ used' ++ free')
    (hxm : x ∈ used')
    (husedAlloc : ∀ i ∈ used', i ≠ x → (p2.elemAt i).unique_id ≠ kInvalidId)
    (hfreeUn : ∀ i ∈ free', (p2.elemAt i).unique_id = kInvalidId)
    (hsent : ∀ i < kTotalReserved, (p2.elemAt i).unique_id = kInvalidId)
    (hactive : p2.active_count_ + 1 = used'.length)
    (hpos : p2.next_unique_id_ ≠ kInvalidId)
    (hmin : kTotalReserved ≤ p2.elements_.length) :
    Inv (finishAlloc p2 x) used' free' := by
  have hxlen : x < p2.elements_.length := (hbounds x (List.mem_append_left _ hxm)).2
  have hx4 : kTotalReserved ≤ x := (hbounds x (List.mem_append_left _ hxm)).1
  have hEx := elemAt_finishAlloc_self p2 x hxlen
  have hnextAll : ∀ j, ((finishAlloc p2 x).elemAt j).next = (p2.elemAt j).next := by
    intro j
    by_cases hj : j = x
    · rw [hj, hEx]
    · rw [elemAt_finishAlloc_ne p2 x j hj]
  have hprevAll : ∀ j, ((finishAlloc p2 x).elemAt j).prev = (p2.elemAt j).prev := by
    intro j
    by_cases hj : j = x
    · rw [hj, hEx]
    · rw [elemAt_finishAlloc_ne p2 x j hj]
  refine ⟨?_, ?_, hnd, ?_, ?_, ?_, ?_, ?_, ?_, ?_, ?_, ?_⟩
  · exact chain_congr p2 _ _ (fun a _ => hnextAll a) (fun a _ => hprevAll a) hchU
  · exact chain_congr p2 _ _ (fun a _ => hnextAll a) (fun a _ => hprevAll a) hchF
  · rw [finishAlloc_length]; exact hbounds
  · rw [finishAlloc_length]; exact hcover
  · intro i hi
    by_cases hix : i = x
    · rw [hix, hEx]; exact hpos
    · rw [elemAt_finishAlloc_ne p2 x i hix]; exact husedAlloc i hi hix
  · intro i hi
    have hix : i ≠ x := by
      intro hh
      rw [List.nodup_append] at hnd
      exact hnd.2.2 hxm (hh ▸ hi)
    rw [elemAt_finishAlloc_ne p2 x i hix]
    exact hfreeUn i hi
  · intro i hi
    have hix : i ≠ x := by omega
    rw [elemAt_finishAlloc_ne p2 x i hix]
    exact hsent i hi
  · rw [finishAlloc_active]; exact hactive
  · exact (stepId_pos p2.next_unique_id_).1
  · exact (stepId_pos p2.next_unique_id_).2
  · rw [finishAlloc_length]; exact hmin

theorem counter_modifyEl (p : VectorPool T) (i : Nat)
    (f : VectorPoolElement T → VectorPoolElement T) :
    (p.modifyEl i f).next_unique_id_ = p.next_unique_id_ := rfl

theorem active_modifyEl (p : VectorPool T) (i : Nat)
    (f : VectorPoolElement T → VectorPoolElement T) :
    (p.modifyEl i f).active_count_ = p.active_count_ := rfl

theorem counter_spliceUsed (p1 : VectorPool T) (loc : AllocationLocation) (x : Nat) :
    (spliceUsed p1 loc x).next_unique_id_ = p1.next_unique_id_ := by
  cases loc <;> rfl

theorem active_spliceUsed (p1 : VectorPool T) (loc : AllocationLocation) (x : Nat) :
    (spliceUsed p1 loc x).active_count_ = p1.active_count_ := by
  cases loc <;> rfl

theorem size_spliceUsed (p1 : VectorPool T) (loc : AllocationLocation) (x : Nat) :
    (spliceUsed p1 loc x).elements_.length = p1.elements_.length := by
  cases loc
  · exact size_AddToListFront p1 x kFirstUsed
  · exact size_AddToListBack p1 x kLastUsed

theorem uid_spliceUsed (p1 : VectorPool T) (loc : AllocationLocation) (x j : Nat) :
    ((spliceUsed p1 loc x).elemAt j).unique_id = (p1.elemAt j).unique_id := by
  cases loc
  · exact uid_AddToListFront p1 x kFirstUsed j
  · exact uid_AddToListBack p1 x kLastUsed j

/-- The used list after an allocation of slot `x`: `kAddToFront` prepends,
`kAddToBack` appends. -/
def usedAfter (loc : AllocationLocation) (used : List Nat) (x : Nat) : List Nat :=
  match loc with
  | AllocationLocation.kAddToFront => x :: used
  | AllocationLocation.kAddToBack => used ++ [x]

/-- Embeds `GetNewElement` when the free list is non-empty: the head `x` of the free
list is reused, moved to the requested end of the used list, reconstructed and
stamped with the current generation counter; the invariant is preserved with
`x` joining the used list and leaving the free list. -/
theorem GetNewElement_spec_reuse (p : VectorPool T) (used ft : List Nat) (x : Nat)
    (hInv : Inv p used (x :: ft)) (loc : AllocationLocation) :
    p.GetNewElement loc =
      (finishAlloc (spliceUsed (p.RemoveFromList x) loc x) x,
        { hasContainer := true, index_ := x, unique_id_ := p.next_unique_id_ }) ∧
    Inv (p.GetNewElement loc).1 (usedAfter loc used x) ft ∧
    (p.GetNewElement loc).1.elements_.length = p.elements_.length ∧
    ((p.GetNewElement loc).1.elemAt x).unique_id = p.next_unique_id_ ∧
    ((p.GetNewElement loc).1.elemAt x).data = (default : T) ∧
    (∀ j, j ≠ x → ((p.GetNewElement loc).1.elemAt j).unique_id = (p.elemAt j).unique_id) ∧
    (p.GetNewElement loc).1.next_unique_id_ = stepId p.next_unique_id_ ∧
    (p.GetNewElement loc).1.active_count_ = p.active_count_ + 1 := by
  have hxmemf : x ∈ x :: ft := List.mem_cons_self x ft
  have hxmem : x ∈ used ++ x :: ft := List.mem_append_right _ hxmemf
  have hxb := hInv.bounds x hxmem
  have hchF : chain p (kFirstFree :: (x :: (ft ++ [kLastFree]))) := hInv.chainF
  have hhd : (p.elemAt kFirstFree).next = x := (List.chain'_cons.mp hchF).1.1
  have hxprev : (p.elemAt x).prev = kFirstFree := (List.chain'_cons.mp hchF).1.2
  have hxne3 : x ≠ kLastFree := by
    have := hxb.1
    intro hh
    rw [hh] at this
    norm_num [kTotalReserved, kLastFree] at this
  have hre := GetNewElement_reuse p loc x hhd hxne3
  -- the slot after x in the free list
  obtain ⟨B, tl, hbt⟩ : ∃ B tl, ft ++ [kLastFree] = B :: tl := by
    cases ft with
    | nil => exact ⟨kLastFree, [], rfl⟩
    | cons a t => exact ⟨a, t ++ [kLastFree], rfl⟩
  have hxnext : (p.elemAt x).next = B := by
    have h2 := (List.chain'_cons.mp hchF).2
    rw [hbt] at h2
    exact (List.chain'_cons.mp h2).1.1
  have hBr : B ∈ ft ∨ B = kLastFree := by
    have : B ∈ ft ++ [kLastFree] := by rw [hbt]; exact List.mem_cons_self B tl
    rcases List.mem_append.mp this with h | h
    · exact Or.inl h
    · exact Or.inr (by simpa using h)
  have hother1 : ∀ j, j ≠ kFirstFree → j ≠ B →
      (p.RemoveFromList x).elemAt j = p.elemAt j := fun j h1 h2 =>
    elemAt_RemoveFromList_ne p x j (by rw [hxprev]; exact h1) (by rw [hxnext]; exact h2)
  -- bounds shorthand
  have hub : ∀ i ∈ used, kTotalReserved ≤ i ∧ i < p.elements_.length := fun i hi =>
    hInv.bounds i (List.mem_append_left _ hi)
  have hfb : ∀ i ∈ ft, kTotalReserved ≤ i ∧ i < p.elements_.length := fun i hi =>
    hInv.bounds i (List.mem_append_right _ (List.mem_cons_of_mem x hi))
  have hdisj := hInv.disjUF
  have hxu : x ∉ used := fun hh => hdisj x hh hxmemf
  have hmin := hInv.minSize
  have hmin4 : (4 : Nat) ≤ p.elements_.length := hmin
  -- the used chain survives RemoveFromList x
  have husedCh1 : chain (p.RemoveFromList x) (kFirstUsed :: (used ++ [kLastUsed])) := by
    refine chain_congr_elem p _ _ ?_ hInv.chainU
    intro a ha
    have haB : a ≠ B ∧ a ≠ kFirstFree := by
      rcases List.mem_cons.mp ha with h0 | hm
      · constructor
        · rcases hBr with hB | hB
          · intro hh; have := (hfb B hB).1; rw [h0] at hh; rw [← hh] at this
            norm_num [kTotalReserved, kFirstUsed] at this
          · rw [h0, hB]; norm_num [kFirstUsed, kLastFree]
        · rw [h0]; norm_num [kFirstUsed, kFirstFree]
      · rcases List.mem_append.mp hm with hu | h1
        · constructor
          · rcases hBr with hB | hB
            · exact fun hh => hdisj a hu (hh ▸ List.mem_cons_of_mem x hB)
            · intro hh; have := (hub a hu).1; rw [hh, hB] at this
              norm_num [kTotalReserved, kLastFree] at this
          · intro hh; have := (hub a hu).1; rw [hh] at this
            norm_num [kTotalReserved, kFirstFree] at this
        · have h1' : a = kLastUsed := by simpa using h1
          constructor
          · rcases hBr with hB | hB
            · intro hh; have := (hfb B hB).1; rw [h1'] at hh; rw [← hh] at this
              norm_num [kTotalReserved, kLastUsed] at this
            · rw [h1', hB]; norm_num [kLastUsed, kLastFree]
          · rw [h1']; norm_num [kLastUsed, kFirstFree]
    exact hother1 a haB.2 haB.1
  -- the free chain after removing its head
  have hchF1 : chain (p.RemoveFromList x) (kFirstFree :: (ft ++ [kLastFree])) := by
    have h := chain_RemoveFromList p x kFirstFree kLastFree [] ft
      (by exact hchF) (by exact hInv.nodupChainF)
      (by have h2 : kFirstFree = (2 : Nat) := rfl; omega) ?_
    · exact h
    · intro i hi
      rcases List.mem_cons.mp hi with h0 | hm
      · rw [h0]; exact hxb.2
      · rcases List.mem_append.mp hm with hf | h3
        · exact (hfb i hf).2
        · have : i = kLastFree := by simpa using h3
          rw [this]; norm_num [kLastFree]; omega
  have hlen1 : (p.RemoveFromList x).elements_.length = p.elements_.length :=
    size_RemoveFromList p x
  -- invariant after the splice and stamp
  have hInvQ : Inv (finishAlloc (spliceUsed (p.RemoveFromList x) loc x) x)
      (usedAfter loc used x) ft := by
    have hndU := hInv.nodupChainU
    have hxnotU : x ∉ kFirstUsed :: (used ++ [kLastUsed]) := by
      intro hh
      rcases List.mem_cons.mp hh with h0 | hm
      · rw [h0] at hxb; have := hxb.1; norm_num [kTotalReserved, kFirstUsed] at this
      · rcases List.mem_append.mp hm with hu | h1
        · exact hxu hu
        · have : x = kLastUsed := by simpa using h1
          rw [this] at hxb; have := hxb.1; norm_num [kTotalReserved, kLastUsed] at this
    have hmemU1 : ∀ i ∈ used ++ [kLastUsed], i < (p.RemoveFromList x).elements_.length := by
      intro i hi
      rw [hlen1]
      rcases List.mem_append.mp hi with hu | h1
      · exact (hub i hu).2
      · have : i = kLastUsed := by simpa using h1
        rw [this]; norm_num [kLastUsed]; omega
    -- the used chain with x spliced in
    have hchU2 : chain (spliceUsed (p.RemoveFromList x) loc x)
        (kFirstUsed :: (usedAfter loc used x ++ [kLastUsed])) := by
      cases loc
      · exact chain_AddToListFront (p.RemoveFromList x) x kFirstUsed kLastUsed used
          husedCh1 hndU hxnotU (by rw [hlen1]; exact hxb.2)
          (by rw [hlen1]; have h0 : kFirstUsed = (0 : Nat) := rfl; omega) hmemU1
      · exact chain_AddToListBack (p.RemoveFromList x) x kFirstUsed kLastUsed used
          husedCh1 hndU hxnotU (by rw [hlen1]; exact hxb.2)
          (by rw [hlen1]; have h0 : kFirstUsed = (0 : Nat) := rfl; omega) hmemU1
    -- the free chain is untouched by the splice
    have hchF2 : chain (spliceUsed (p.RemoveFromList x) loc x)
        (kFirstFree :: (ft ++ [kLastFree])) := by
      have hfmem : ∀ a ∈ kFirstFree :: (ft ++ [kLastFree]),
          a ≠ x ∧ a ≠ kFirstUsed ∧ a ≠ kLastUsed := by
        intro a ha
        rcases List.mem_cons.mp ha with h2 | hm
        · refine ⟨?_, ?_, ?_⟩
          · rw [h2]; intro hh; rw [← hh] at hxb; have := hxb.1
            norm_num [kTotalReserved, kFirstFree] at this
          · rw [h2]; norm_num [kFirstFree, kFirstUsed]
          · rw [h2]; norm_num [kFirstFree, kLastUsed]
        · rcases List.mem_append.mp hm with hf | h3
          · have h4 := (hfb a hf).1
            refine ⟨?_, ?_, ?_⟩
            · exact fun hh => (List.nodup_cons.mp hInv.nodupFree).1 (hh ▸ hf)
            · intro hh; rw [hh] at h4; norm_num [kTotalReserved, kFirstUsed] at h4
            · intro hh; rw [hh] at h4; norm_num [kTotalReserved, kLastUsed] at h4
          · have h3' : a = kLastFree := by simpa using h3
            refine ⟨?_, ?_, ?_⟩
            · rw [h3']; intro hh; rw [← hh] at hxb; have := hxb.1
              norm_num [kTotalReserved, kLastFree] at this
            · rw [h3']; norm_num [kLastFree, kFirstUsed]
            · rw [h3']; norm_num [kLastFree, kLastUsed]
      cases loc
      · -- front: touched slots are x, kFirstUsed and the old head of the used list
        refine chain_congr_elem _ _ _ ?_ hchF1
        intro a ha
        obtain ⟨hax, haF, haL⟩ := hfmem a ha
        obtain ⟨U, utl, hut⟩ : ∃ U utl, used ++ [kLastUsed] = U :: utl := by
          cases used with
          | nil => exact ⟨kLastUsed, [], rfl⟩
          | cons b t => exact ⟨b, t ++ [kLastUsed], rfl⟩
        have hhdU : ((p.RemoveFromList x).elemAt kFirstUsed).next = U := by
          have h5 : chain (p.RemoveFromList x) (kFirstUsed :: (U :: utl)) := by
            rw [← hut]; exact husedCh1
          exact (List.chain'_cons.mp h5).1.1
        show ((p.RemoveFromList x).AddToListFront x kFirstUsed).elemAt a =
          (p.RemoveFromList x).elemAt a
        refine elemAt_AddToListFront_ne (p.RemoveFromList x) x kFirstUsed a ?_ hax haF
        rw [hhdU]
        have hUm : U ∈ used ++ [kLastUsed] := by rw [hut]; exact List.mem_cons_self U utl
        rcases List.mem_append.mp hUm with huu | h1
        · rcases List.mem_cons.mp ha with h2 | hm
          · intro hh; have := (hub U huu).1; rw [h2] at hh; rw [← hh] at this
            norm_num [kTotalReserved, kFirstFree] at this
          · rcases List.mem_append.mp hm with hf | h3
            · exact fun hh => hdisj U huu (by rw [← hh]; exact List.mem_cons_of_mem x hf)
            · have h3' : a = kLastFree := by simpa using h3
              intro hh; have := (hub U huu).1; rw [h3'] at hh; rw [← hh] at this
              norm_num [kTotalReserved, kLastFree] at this
        · have h1' : U = kLastUsed := by simpa using h1
          rw [h1']
          exact haL
      · -- back: touched slots are x, kLastUsed and the old last of the used list
        refine chain_congr_elem _ _ _ ?_ hchF1
        intro a ha
        obtain ⟨hax, haF, haL⟩ := hfmem a ha
        show ((p.RemoveFromList x).AddToListBack x kLastUsed).elemAt a =
          (p.RemoveFromList x).elemAt a
        refine elemAt_AddToListBack_ne (p.RemoveFromList x) x kLastUsed a ?_ hax haL
        have hlaU : ((p.RemoveFromList x).elemAt kLastUsed).prev =
            (kFirstUsed :: used).getLast (List.cons_ne_nil _ _) := by
          have h5 : chain (p.RemoveFromList x) ((kFirstUsed :: used) ++ [kLastUsed]) := by
            have : kFirstUsed :: (used ++ [kLastUsed]) =
                (kFirstUsed :: used) ++ [kLastUsed] := by simp
            rw [← this]; exact husedCh1
          rw [chain, List.chain'_append] at h5
          have h6 := h5.2.2 ((kFirstUsed :: used).getLast (List.cons_ne_nil _ _)) ?_
            kLastUsed rfl
          · exact h6.2
          · rw [List.getLast?_eq_getLast _ (List.cons_ne_nil _ _)]
            exact Option.mem_some_self _
        rw [hlaU]
        have hLm : (kFirstUsed :: used).getLast (List.cons_ne_nil _ _) ∈
            kFirstUsed :: used := List.getLast_mem _
        rcases List.mem_cons.mp hLm with h0 | huu
        · rw [h0]
          rcases List.mem_cons.mp ha with h2 | hm
          · rw [h2]; norm_num [kFirstFree, kFirstUsed]
          · rcases List.mem_append.mp hm with hf | h3
            · intro hh; have := (hfb a hf).1; rw [hh] at this
              norm_num [kTotalReserved, kFirstUsed] at this
            · have h3' : a = kLastFree := by simpa using h3
              rw [h3']; norm_num [kLastFree, kFirstUsed]
        · set L := (kFirstUsed :: used).getLast (List.cons_ne_nil _ _)
          rcases List.mem_cons.mp ha with h2 | hm
          · intro hh; have := (hub L huu).1; rw [h2] at hh; rw [← hh] at this
            norm_num [kTotalReserved, kFirstFree] at this
          · rcases List.mem_append.mp hm with hf | h3
            · exact fun hh => hdisj L huu (by rw [← hh]; exact List.mem_cons_of_mem x hf)
            · have h3' : a = kLastFree := by simpa using h3
              intro hh; have := (hub L huu).1; rw [h3'] at hh; rw [← hh] at this
              norm_num [kTotalReserved, kLastFree] at this
    -- now assemble
    have hlen2 : (spliceUsed (p.RemoveFromList x) loc x).elements_.length =
        p.elements_.length := by rw [size_spliceUsed, hlen1]
    have huidP2 : ∀ j, ((spliceUsed (p.RemoveFromList x) loc x).elemAt j).unique_id =
        (p.elemAt j).unique_id := fun j => by
      rw [uid_spliceUsed, uid_RemoveFromList]
    refine Inv_assemble _ x _ ft hchU2 hchF2 ?_ ?_ ?_ ?_ ?_ ?_ ?_ ?_ ?_ ?_
    · -- nodup
      have hperm : (used ++ x :: ft).Perm ((usedAfter loc used x) ++ ft) := by
        cases loc
        · exact List.perm_middle
        · show (used ++ x :: ft).Perm ((used ++ [x]) ++ ft)
          rw [show (used ++ [x]) ++ ft = used ++ (x :: ft) by simp]
      exact hperm.nodup hInv.nodup
    · -- bounds
      intro i hi
      rw [hlen2]
      rcases List.mem_append.mp hi with hu' | hf
      · cases loc with
        | kAddToFront =>
          rcases List.mem_cons.mp hu' with hix | hiu
          · rw [hix]; exact hxb
          · exact hub i hiu
        | kAddToBack =>
          rcases List.mem_append.mp hu' with hiu | hix
          · exact hub i hiu
          · have : i = x := by simpa using hix
            rw [this]; exact hxb
      · exact hfb i hf
    · -- cover
      intro i hlt h4
      rw [hlen2] at hlt
      have := hInv.cover i hlt h4
      rcases List.mem_append.mp this with hu' | hf
      · cases loc with
        | kAddToFront => exact List.mem_append_left _ (List.mem_cons_of_mem x hu')
        | kAddToBack => exact List.mem_append_left _ (List.mem_append_left _ hu')
      · rcases List.mem_cons.mp hf with hix | hif
        · cases loc with
          | kAddToFront => exact List.mem_append_left _ (by rw [hix]; exact List.mem_cons_self _ _)
          | kAddToBack => exact List.mem_append_left _ (by rw [hix]; simp [usedAfter])
        · exact List.mem_append_right _ hif
    · -- x in the new used list
      cases loc with
      | kAddToFront => exact List.mem_cons_self x used
      | kAddToBack => simp [usedAfter]
    · -- existing used slots stay allocated
      intro i hi hix
      rw [huidP2 i]
      have hiu : i ∈ used := by
        cases loc with
        | kAddToFront =>
          rcases List.mem_cons.mp hi with h | h
          · exact absurd h hix
          · exact h
        | kAddToBack =>
          rcases List.mem_append.mp hi with h | h
          · exact h
          · exact absurd (by simpa using h) hix
      exact hInv.usedAlloc i hiu
    · -- free slots stay unallocated
      intro i hi
      rw [huidP2 i]
      exact hInv.freeUnalloc i (List.mem_cons_of_mem x hi)
    · -- sentinels stay unallocated
      intro i hi
      rw [huidP2 i]
      exact hInv.sentinelUnalloc i hi
    · -- active count
      rw [active_spliceUsed]
      show p.active_count_ + 1 = _
      rw [hInv.activeEq]
      cases loc with
      | kAddToFront => simp [usedAfter]
      | kAddToBack => simp [usedAfter]
    · -- counter still valid
      rw [counter_spliceUsed]
      exact hInv.uidPos
    · rw [hlen2]; exact hInv.minSize
  -- final conjunction
  rw [hre]
  have hlenQ : (finishAlloc (spliceUsed (p.RemoveFromList x) loc x) x).elements_.length =
      p.elements_.length := by
    rw [finishAlloc_length, size_spliceUsed, hlen1]
  have hxlen2 : x < (spliceUsed (p.RemoveFromList x) loc x).elements_.length := by
    rw [size_spliceUsed, hlen1]; exact hxb.2
  have hEx := elemAt_finishAlloc_self _ x hxlen2
  refine ⟨rfl, hInvQ, hlenQ, ?_, ?_, ?_, ?_, ?_⟩
  · rw [hEx]
    show (spliceUsed (p.RemoveFromList x) loc x).next_unique_id_ = _
    rw [counter_spliceUsed]
    rfl
  · rw [hEx]
  · intro j hj
    rw [elemAt_finishAlloc_ne _ _ _ hj, uid_spliceUsed, uid_RemoveFromList]
  · rw [finishAlloc_counter, counter_spliceUsed]
    rfl
  · rw [finishAlloc_active, active_spliceUsed]
    rfl

theorem elemAt_append_lt (p : VectorPool T) (el : VectorPoolElement T) (i : Nat)
    (hi : i < p.elements_.length) :
    ({ p with elements_ := p.elements_ ++ [el] } : VectorPool T).elemAt i = p.elemAt i := by
  unfold elemAt
  rw [List.get?_append hi]

theorem elemAt_append_self (p : VectorPool T) (el : VectorPoolElement T) :
    ({ p with elements_ := p.elements_ ++ [el] } : VectorPool T).elemAt
      p.elements_.length = el := by
  unfold elemAt
  rw [List.get?_concat_length]
  rfl

/-- Embeds `GetNewElement` when the free list is empty: the backing array grows by
exactly one slot, which is spliced into the used list at the requested end,
reconstructed and stamped; the invariant is preserved with the new index
joining the used list. -/
theorem GetNewElement_spec_grow (p : VectorPool T) (used : List Nat)
    (hInv : Inv p used []) (loc : AllocationLocation) :
    p.GetNewElement loc =
      (finishAlloc
          (spliceUsed { p with elements_ := p.elements_ ++ [VectorPoolElement.mkDefault T] }
            loc p.elements_.length)
          p.elements_.length,
        { hasContainer := true, index_ := p.elements_.length,
          unique_id_ := p.next_unique_id_ }) ∧
    Inv (p.GetNewElement loc).1 (usedAfter loc used p.elements_.length) [] ∧
    (p.GetNewElement loc).1.elements_.length = p.elements_.length + 1 ∧
    ((p.GetNewElement loc).1.elemAt p.elements_.length).unique_id = p.next_unique_id_ ∧
    ((p.GetNewElement loc).1.elemAt p.elements_.length).data = (default : T) ∧
    (∀ j, j ≠ p.elements_.length →
      ((p.GetNewElement loc).1.elemAt j).unique_id = (p.elemAt j).unique_id) ∧
    (p.GetNewElement loc).1.next_unique_id_ = stepId p.next_unique_id_ ∧
    (p.GetNewElement loc).1.active_count_ = p.active_count_ + 1 := by
  have hchF : chain p (kFirstFree :: ([] ++ [kLastFree])) := hInv.chainF
  have hhd : (p.elemAt kFirstFree).next = kLastFree := (List.chain'_cons.mp hchF).1.1
  have hre := GetNewElement_grow p loc hhd
  set n := p.elements_.length with hn
  set pApp : VectorPool T :=
    { p with elements_ := p.elements_ ++ [VectorPoolElement.mkDefault T] } with hpApp
  have hmin := hInv.minSize
  have hmin4 : (4 : Nat) ≤ p.elements_.length := hmin
  have hub : ∀ i ∈ used, kTotalReserved ≤ i ∧ i < p.elements_.length := fun i hi =>
    hInv.bounds i (List.mem_append_left _ hi)
  have hlenA : pApp.elements_.length = n + 1 := by
    rw [hpApp]
    simp
  have hAppLt : ∀ i, i < n → pApp.elemAt i = p.elemAt i := fun i hi =>
    elemAt_append_lt p _ i hi
  have hsmall : ∀ a, a = kFirstUsed ∨ a = kLastUsed ∨ a = kFirstFree ∨ a = kLastFree →
      a < n := by
    intro a ha
    rcases ha with h | h | h | h <;>
      (rw [h]; first
        | (show kFirstUsed < n; norm_num [kFirstUsed]; omega)
        | (show kLastUsed < n; norm_num [kLastUsed]; omega)
        | (show kFirstFree < n; norm_num [kFirstFree]; omega)
        | (show kLastFree < n; norm_num [kLastFree]; omega))
  have hchU1 : chain pApp (kFirstUsed :: (used ++ [kLastUsed])) := by
    refine chain_congr_elem p pApp _ ?_ hInv.chainU
    intro a ha
    rcases List.mem_cons.mp ha with h0 | hm
    · exact hAppLt a (hsmall a (Or.inl h0))
    · rcases List.mem_append.mp hm with hu | h1
      · exact hAppLt a (hub a hu).2
      · exact hAppLt a (hsmall a (Or.inr (Or.inl (by simpa using h1))))
  have hchF1 : chain pApp (kFirstFree :: ([] ++ [kLastFree])) := by
    refine chain_congr_elem p pApp _ ?_ hInv.chainF
    intro a ha
    rcases List.mem_cons.mp ha with h2 | hm
    · exact hAppLt a (hsmall a (Or.inr (Or.inr (Or.inl h2))))
    · exact hAppLt a (hsmall a (Or.inr (Or.inr (Or.inr (by simpa using hm)))))
  have hnnotU : n ∉ kFirstUsed :: (used ++ [kLastUsed]) := by
    intro hh
    rcases List.mem_cons.mp hh with h0 | hm
    · have := hsmall n (Or.inl h0); omega
    · rcases List.mem_append.mp hm with hu | h1
      · have := (hub n hu).2; omega
      · have := hsmall n (Or.inr (Or.inl (by simpa using h1))); omega
  have hmemU1 : ∀ i ∈ used ++ [kLastUsed], i < pApp.elements_.length := by
    intro i hi
    rw [hlenA]
    rcases List.mem_append.mp hi with hu | h1
    · have := (hub i hu).2; omega
    · have := hsmall i (Or.inr (Or.inl (by simpa using h1))); omega
  have hn4 : kTotalReserved ≤ n := hmin
  have hchU2 : chain (spliceUsed pApp loc n)
      (kFirstUsed :: (usedAfter loc used n ++ [kLastUsed])) := by
    cases loc
    · exact chain_AddToListFront pApp n kFirstUsed kLastUsed used
        hchU1 hInv.nodupChainU hnnotU (by rw [hlenA]; omega)
        (by rw [hlenA]; have := hsmall kFirstUsed (Or.inl rfl); omega) hmemU1
    · exact chain_AddToListBack pApp n kFirstUsed kLastUsed used
        hchU1 hInv.nodupChainU hnnotU (by rw [hlenA]; omega)
        (by rw [hlenA]; have := hsmall kFirstUsed (Or.inl rfl); omega) hmemU1
  have hchF2 : chain (spliceUsed pApp loc n) (kFirstFree :: ([] ++ [kLastFree])) := by
    have hfmem : ∀ a ∈ kFirstFree :: ([] ++ [kLastFree] : List Nat),
        a ≠ n ∧ a ≠ kFirstUsed ∧ a ≠ kLastUsed := by
      intro a ha
      rcases List.mem_cons.mp ha with h2 | hm
      · refine ⟨?_, ?_, ?_⟩
        · have := hsmall a (Or.inr (Or.inr (Or.inl h2))); omega
        · rw [h2]; norm_num [kFirstFree, kFirstUsed]
        · rw [h2]; norm_num [kFirstFree, kLastUsed]
      · have h3 : a = kLastFree := by simpa using hm
        refine ⟨?_, ?_, ?_⟩
        · have := hsmall a (Or.inr (Or.inr (Or.inr h3))); omega
        · rw [h3]; norm_num [kLastFree, kFirstUsed]
        · rw [h3]; norm_num [kLastFree, kLastUsed]
    cases loc
    · refine chain_congr_elem pApp _ _ ?_ hchF1
      intro a ha
      obtain ⟨han, haF, haL⟩ := hfmem a ha
      obtain ⟨U, utl, hut⟩ : ∃ U utl, used ++ [kLastUsed] = U :: utl := by
        cases used with
        | nil => exact ⟨kLastUsed, [], rfl⟩
        | cons b t => exact ⟨b, t ++ [kLastUsed], rfl⟩
      have hhdU : (pApp.elemAt kFirstUsed).next = U := by
        have h5 : chain pApp (kFirstUsed :: (U :: utl)) := by
          rw [← hut]; exact hchU1
        exact (List.chain'_cons.mp h5).1.1
      show (pApp.AddToListFront n kFirstUsed).elemAt a = pApp.elemAt a
      refine elemAt_AddToListFront_ne pApp n kFirstUsed a ?_ han haF
      rw [hhdU]
      have hUm : U ∈ used ++ [kLastUsed] := by rw [hut]; exact List.mem_cons_self U utl
      rcases List.mem_append.mp hUm with huu | h1
      · rcases List.mem_cons.mp ha with h2 | hm
        · intro hh; have := (hub U huu).1; rw [h2] at hh; rw [← hh] at this
          norm_num [kTotalReserved, kFirstFree] at this
        · have h3 : a = kLastFree := by simpa using hm
          intro hh; have := (hub U huu).1; rw [h3] at hh; rw [← hh] at this
          norm_num [kTotalReserved, kLastFree] at this
      · have h1' : U = kLastUsed := by simpa using h1
        rw [h1']
        exact haL
    · refine chain_congr_elem pApp _ _ ?_ hchF1
      intro a ha
      obtain ⟨han, haF, haL⟩ := hfmem a ha
      show (pApp.AddToListBack n kLastUsed).elemAt a = pApp.elemAt a
      refine elemAt_AddToListBack_ne pApp n kLastUsed a ?_ han haL
      have hlaU : (pApp.elemAt kLastUsed).prev =
          (kFirstUsed :: used).getLast (List.cons_ne_nil _ _) := by
        have h5 : chain pApp ((kFirstUsed :: used) ++ [kLastUsed]) := by
          have heq : kFirstUsed :: (used ++ [kLastUsed]) =
              (kFirstUsed :: used) ++ [kLastUsed] := by simp
          rw [← heq]; exact hchU1
        rw [chain, List.chain'_append] at h5
        have h6 := h5.2.2 ((kFirstUsed :: used).getLast (List.cons_ne_nil _ _)) ?_
          kLastUsed rfl
        · exact h6.2
        · rw [List.getLast?_eq_getLast _ (List.cons_ne_nil _ _)]
          exact Option.mem_some_self _
      rw [hlaU]
      have hLm : (kFirstUsed :: used).getLast (List.cons_ne_nil _ _) ∈
          kFirstUsed :: used := List.getLast_mem _
      rcases List.mem_cons.mp hLm with h0 | huu
      · rw [h0]
        rcases List.mem_cons.mp ha with h2 | hm
        · rw [h2]; norm_num [kFirstFree, kFirstUsed]
        · have h3 : a = kLastFree := by simpa using hm
          rw [h3]; norm_num [kLastFree, kFirstUsed]
      · set L := (kFirstUsed :: used).getLast (List.cons_ne_nil _ _)
        rcases List.mem_cons.mp ha with h2 | hm
        · intro hh; have := (hub L huu).1; rw [h2] at hh; rw [← hh] at this
          norm_num [kTotalReserved, kFirstFree] at this
        · have h3 : a = kLastFree := by simpa using hm
          intro hh; have := (hub L huu).1; rw [h3] at hh; rw [← hh] at this
          norm_num [kTotalReserved, kLastFree] at this
  have hlen2 : (spliceUsed pApp loc n).elements_.length = n + 1 := by
    rw [size_spliceUsed, hlenA]
  have huidP2 : ∀ j, j < n → ((spliceUsed pApp loc n).elemAt j).unique_id =
      (p.elemAt j).unique_id := fun j hj => by
    rw [uid_spliceUsed, hAppLt j hj]
  have hInvQ : Inv (finishAlloc (spliceUsed pApp loc n) n) (usedAfter loc used n) [] := by
    refine Inv_assemble _ n _ [] hchU2 hchF2 ?_ ?_ ?_ ?_ ?_ ?_ ?_ ?_ ?_ ?_
    · -- nodup
      rw [List.append_nil]
      have hnu : n ∉ used := fun hh => absurd (hub n hh).2 (by omega)
      cases loc
      · exact List.nodup_cons.mpr ⟨hnu, hInv.nodupUsed⟩
      · show (used ++ [n]).Nodup
        rw [List.nodup_append]
        exact ⟨hInv.nodupUsed, List.nodup_singleton _,
          fun a ha hb => hnu (by rw [show a = n from by simpa using hb] at ha; exact ha)⟩
    · -- bounds
      intro i hi
      rw [hlen2]
      rw [List.append_nil] at hi
      have : i ∈ used ∨ i = n := by
        cases loc with
        | kAddToFront =>
          rcases List.mem_cons.mp hi with h | h
          · exact Or.inr h
          · exact Or.inl h
        | kAddToBack =>
          rcases List.mem_append.mp hi with h | h
          · exact Or.inl h
          · exact Or.inr (by simpa using h)
      rcases this with h | h
      · have := hub i h; omega
      · rw [h]; omega
    · -- cover
      intro i hlt h4
      rw [hlen2] at hlt
      refine List.mem_append_left _ ?_
      by_cases hin : i = n
      · cases loc with
        | kAddToFront => rw [hin]; exact List.mem_cons_self _ _
        | kAddToBack => rw [hin]; simp [usedAfter]
      · have hilt : i < n := by omega
        have := hInv.cover i hilt h4
        rw [List.append_nil] at this
        cases loc with
        | kAddToFront => exact List.mem_cons_of_mem _ this
        | kAddToBack => exact List.mem_append_left _ this
    · -- n in the new used list
      cases loc with
      | kAddToFront => exact List.mem_cons_self n used
      | kAddToBack => simp [usedAfter]
    · -- existing used slots stay allocated
      intro i hi hix
      have hiu : i ∈ used := by
        cases loc with
        | kAddToFront =>
          rcases List.mem_cons.mp hi with h | h
          · exact absurd h hix
          · exact h
        | kAddToBack =>
          rcases List.mem_append.mp hi with h | h
          · exact h
          · exact absurd (by simpa using h) hix
      rw [huidP2 i (hub i hiu).2]
      exact hInv.usedAlloc i hiu
    · -- free slots stay unallocated
      intro i hi
      exact absurd hi (List.not_mem_nil i)
    · -- sentinels stay unallocated
      intro i hi
      have hi4 : i < n := by
        have h4 : kTotalReserved = 4 := rfl
        omega
      rw [huidP2 i hi4]
      exact hInv.sentinelUnalloc i hi
    · -- active count
      rw [active_spliceUsed]
      show p.active_count_ + 1 = _
      rw [hInv.activeEq]
      cases loc with
      | kAddToFront => simp [usedAfter]
      | kAddToBack => simp [usedAfter]
    · -- counter still valid
      rw [counter_spliceUsed]
      exact hInv.uidPos
    · rw [hlen2]; omega
  rw [hre]
  have hnlen2 : n < (spliceUsed pApp loc n).elements_.length := by rw [hlen2]; omega
  have hEx := elemAt_finishAlloc_self (spliceUsed pApp loc n) n hnlen2
  refine ⟨rfl, hInvQ, ?_, ?_, ?_, ?_, ?_, ?_⟩
  · rw [finishAlloc_length, hlen2]
  · rw [hEx]
    show (spliceUsed pApp loc n).next_unique_id_ = _
    rw [counter_spliceUsed]
  · rw [hEx]
  · intro j hj
    rw [elemAt_finishAlloc_ne _ _ _ hj, uid_spliceUsed]
    by_cases hjn : j < n
    · rw [hAppLt j hjn]
    · have hge : n + 1 ≤ j ∨ j = n := by omega
      rcases hge with hge | hge
      · have e1 : pApp.elemAt j = VectorPoolElement.mkDefault T := by
          unfold elemAt
          rw [List.get?_eq_none.mpr (by rw [show pApp.elements_.length = n + 1 from hlenA]; omega)]
          rfl
        have e2 : p.elemAt j = VectorPoolElement.mkDefault T := by
          unfold elemAt
          rw [List.get?_eq_none.mpr (show p.elements_.length ≤ j by omega)]
          rfl
        rw [e1, e2]
      · exact absurd hge hj
  · rw [finishAlloc_counter, counter_spliceUsed]
  · rw [finishAlloc_active, active_spliceUsed]

theorem active_RemoveFromList (p : VectorPool T) (x : Nat) :
    (p.RemoveFromList x).active_count_ = p.active_count_ := rfl

theorem active_AddToListFront (p : VectorPool T) (x s : Nat) :
    (p.AddToListFront x s).active_count_ = p.active_count_ := rfl

theorem counter_RemoveFromList (p : VectorPool T) (x : Nat) :
    (p.RemoveFromList x).next_unique_id_ = p.next_unique_id_ := rfl

theorem counter_AddToListFront (p : VectorPool T) (x s : Nat) :
    (p.AddToListFront x s).next_unique_id_ = p.next_unique_id_ := rfl

/-- Embeds `FreeElement(size_t)` on an allocated slot `i` (sitting at position
`l1 ++ i :: l2` of the used list): the assert passes, the payload is reset, the
generation invalidated, and `i` moves from the used list to the front of the
free list, preserving the invariant. -/
theorem FreeElement_spec (p : VectorPool T) (used free : List Nat) (i : Nat)
    (hInv : Inv p used free) (l1 l2 : List Nat) (hsplit : used = l1 ++ i :: l2) :
    ∃ q, p.FreeElement i = some q ∧
      Inv q (l1 ++ l2) (i :: free) ∧
      q.elements_.length = p.elements_.length ∧
      (q.elemAt i).unique_id = kInvalidId ∧
      (q.elemAt i).data = (default : T) ∧
      (∀ j, j ≠ i → (q.elemAt j).unique_id = (p.elemAt j).unique_id) ∧
      q.next_unique_id_ = p.next_unique_id_ ∧
      q.active_count_ + 1 = p.active_count_ := by
  have him : i ∈ used := by rw [hsplit]; exact List.mem_append_right _ (List.mem_cons_self i l2)
  have huid : (p.elemAt i).unique_id ≠ kInvalidId := hInv.usedAlloc i him
  have hib := hInv.bounds i (List.mem_append_left _ him)
  have hmin := hInv.minSize
  have hmin4 : (4 : Nat) ≤ p.elements_.length := hmin
  have hub : ∀ a ∈ used, kTotalReserved ≤ a ∧ a < p.elements_.length := fun a ha =>
    hInv.bounds a (List.mem_append_left _ ha)
  have hfbd : ∀ a ∈ free, kTotalReserved ≤ a ∧ a < p.elements_.length := fun a ha =>
    hInv.bounds a (List.mem_append_right _ ha)
  have hdisj := hInv.disjUF
  set p1 := p.modifyEl i
    (fun e => { e with data := (default : T), unique_id := kInvalidId }) with hp1
  set p2 := p1.RemoveFromList i with hp2
  set p3 := p2.AddToListFront i kFirstFree with hp3
  have hfe : p.FreeElement i = some { p3 with active_count_ := p3.active_count_ - 1 } := by
    unfold FreeElement
    rw [if_neg huid]
  -- facts about p1 (payload reset, generation invalidated)
  have hlen1 : p1.elements_.length = p.elements_.length := size_modifyEl p i _
  have hE1ne : ∀ j, j ≠ i → p1.elemAt j = p.elemAt j := fun j hj =>
    elemAt_modifyEl_ne p i j _ hj
  have hE1i : p1.elemAt i = { p.elemAt i with data := (default : T), unique_id := kInvalidId } :=
    elemAt_modifyEl_self p i _ hib.2
  have hnext1 : ∀ j, (p1.elemAt j).next = (p.elemAt j).next := fun j =>
    next_elemAt_modifyEl p i j _ (fun e => rfl)
  have hprev1 : ∀ j, (p1.elemAt j).prev = (p.elemAt j).prev := fun j =>
    prev_elemAt_modifyEl p i j _ (fun e => rfl)
  have hchU1' : chain p1 (kFirstUsed :: (used ++ [kLastUsed])) :=
    chain_congr p p1 _ (fun a _ => hnext1 a) (fun a _ => hprev1 a) hInv.chainU
  have hchF1 : chain p1 (kFirstFree :: (free ++ [kLastFree])) :=
    chain_congr p p1 _ (fun a _ => hnext1 a) (fun a _ => hprev1 a) hInv.chainF
  have heqU : (l1 ++ i :: l2) ++ [kLastUsed] = l1 ++ (i :: (l2 ++ [kLastUsed])) := by simp
  have hchU1 : chain p1 (kFirstUsed :: (l1 ++ (i :: (l2 ++ [kLastUsed])))) := by
    have h := hchU1'
    rw [hsplit, heqU] at h
    exact h
  have hndU1 : (kFirstUsed :: (l1 ++ (i :: (l2 ++ [kLastUsed])))).Nodup := by
    have h := hInv.nodupChainU
    rw [hsplit, heqU] at h
    exact h
  have hmemUsplit : ∀ a, a ∈ l1 ++ (i :: (l2 ++ [kLastUsed])) → a ∈ used ∨ a = kLastUsed := by
    intro a ha
    rcases List.mem_append.mp ha with h | h
    · exact Or.inl (by rw [hsplit]; exact List.mem_append_left _ h)
    · rcases List.mem_cons.mp h with h' | h'
      · exact Or.inl (by rw [hsplit, h']; exact List.mem_append_right _ (List.mem_cons_self i l2))
      · rcases List.mem_append.mp h' with h2 | h2
        · exact Or.inl (by rw [hsplit]; exact List.mem_append_right _ (List.mem_cons_of_mem i h2))
        · exact Or.inr (by simpa using h2)
  have hmlenU : ∀ a ∈ l1 ++ (i :: (l2 ++ [kLastUsed])), a < p1.elements_.length := by
    intro a ha
    rw [hlen1]
    rcases hmemUsplit a ha with h | h
    · exact (hub a h).2
    · rw [h]; norm_num [kLastUsed]; omega
  have hchU2 : chain p2 (kFirstUsed :: (l1 ++ (l2 ++ [kLastUsed]))) :=
    chain_RemoveFromList p1 i kFirstUsed kLastUsed l1 l2 hchU1 hndU1
      (by rw [hlen1]; have h0 : kFirstUsed = (0 : Nat) := rfl; omega) hmlenU
  -- predecessor and successor of i in the used list
  have hAm : (p1.elemAt i).prev ∈ kFirstUsed :: l1 := by
    have h := hchU1
    have heq2 : kFirstUsed :: (l1 ++ (i :: (l2 ++ [kLastUsed]))) =
        (kFirstUsed :: l1) ++ i :: (l2 ++ [kLastUsed]) := by simp
    rw [heq2, chain, List.chain'_append] at h
    have h6 := h.2.2 ((kFirstUsed :: l1).getLast (List.cons_ne_nil _ _)) ?_ i rfl
    · rw [h6.2]; exact List.getLast_mem _
    · rw [List.getLast?_eq_getLast _ (List.cons_ne_nil _ _)]
      exact Option.mem_some_self _
  have hBm : (p1.elemAt i).next ∈ l2 ++ [kLastUsed] := by
    obtain ⟨B, btl, hBt⟩ : ∃ B btl, l2 ++ [kLastUsed] = B :: btl := by
      cases l2 with
      | nil => exact ⟨kLastUsed, [], rfl⟩
      | cons b t => exact ⟨b, t ++ [kLastUsed], rfl⟩
    have h := hchU1
    have heq2 : kFirstUsed :: (l1 ++ (i :: (l2 ++ [kLastUsed]))) =
        (kFirstUsed :: l1) ++ i :: (l2 ++ [kLastUsed]) := by simp
    rw [heq2, chain, List.chain'_append, hBt] at h
    have h7 := (List.chain'_cons.mp h.2.1).1.1
    rw [h7, hBt]
    exact List.mem_cons_self B btl
  -- membership facts about the free chain
  have hfch : ∀ a ∈ kFirstFree :: (free ++ [kLastFree]),
      (a = kFirstFree ∨ a = kLastFree ∨ a ∈ free) := by
    intro a ha
    rcases List.mem_cons.mp ha with h | h
    · exact Or.inl h
    · rcases List.mem_append.mp h with h' | h'
      · exact Or.inr (Or.inr h')
      · exact Or.inr (Or.inl (by simpa using h'))
  have hfneU : ∀ a ∈ kFirstFree :: (free ++ [kLastFree]), ∀ b, b ∈ kFirstUsed :: l1 ∨
      b ∈ l2 ++ [kLastUsed] → a ≠ b := by
    intro a ha b hb hab
    have hbU : b ∈ used ∨ b = kFirstUsed ∨ b = kLastUsed := by
      rcases hb with h | h
      · rcases List.mem_cons.mp h with h' | h'
        · exact Or.inr (Or.inl h')
        · exact Or.inl (by rw [hsplit]; exact List.mem_append_left _ h')
      · rcases List.mem_append.mp h with h' | h'
        · exact Or.inl (by rw [hsplit]; exact List.mem_append_right _ (List.mem_cons_of_mem i h'))
        · exact Or.inr (Or.inr (by simpa using h'))
    rcases hfch a ha with h2 | h3 | hfm
    · rcases hbU with hu | h0 | h1
      · have := (hub b hu).1; rw [← hab, h2] at this
        norm_num [kTotalReserved, kFirstFree] at this
      · rw [h2, h0] at hab; norm_num [kFirstFree, kFirstUsed] at hab
      · rw [h2, h1] at hab; norm_num [kFirstFree, kLastUsed] at hab
    · rcases hbU with hu | h0 | h1
      · have := (hub b hu).1; rw [← hab, h3] at this
        norm_num [kTotalReserved, kLastFree] at this
      · rw [h3, h0] at hab; norm_num [kLastFree, kFirstUsed] at hab
      · rw [h3, h1] at hab; norm_num [kLastFree, kLastUsed] at hab
    · rcases hbU with hu | h0 | h1
      · exact hdisj b hu (hab ▸ hfm)
      · have := (hfbd a hfm).1; rw [hab, h0] at this
        norm_num [kTotalReserved, kFirstUsed] at this
      · have := (hfbd a hfm).1; rw [hab, h1] at this
        norm_num [kTotalReserved, kLastUsed] at this
  have hchF2 : chain p2 (kFirstFree :: (free ++ [kLastFree])) := by
    refine chain_congr_elem p1 p2 _ ?_ hchF1
    intro a ha
    exact elemAt_RemoveFromList_ne p1 i a
      (hfneU a ha _ (Or.inl hAm)) (hfneU a ha _ (Or.inr hBm))
  have hlen2 : p2.elements_.length = p.elements_.length := by
    rw [hp2, size_RemoveFromList, hlen1]
  have hinotF : i ∉ kFirstFree :: (free ++ [kLastFree]) := by
    intro hh
    rcases hfch i hh with h2 | h3 | hfm
    · rw [h2] at hib; have := hib.1; norm_num [kTotalReserved, kFirstFree] at this
    · rw [h3] at hib; have := hib.1; norm_num [kTotalReserved, kLastFree] at this
    · exact hdisj i him hfm
  have hchF3 : chain p3 (kFirstFree :: (i :: (free ++ [kLastFree]))) :=
    chain_AddToListFront p2 i kFirstFree kLastFree free hchF2 hInv.nodupChainF
      hinotF (by rw [hlen2]; exact hib.2)
      (by rw [hlen2]; have h2 : kFirstFree = (2 : Nat) := rfl; omega)
      (by
        intro a ha
        rw [hlen2]
        rcases List.mem_append.mp ha with h | h
        · exact (hfbd a h).2
        · have : a = kLastFree := by simpa using h
          rw [this]; norm_num [kLastFree]; omega)
  -- i does not occur among the remaining used-chain members
  have hndUsed : (l1 ++ i :: l2).Nodup := by rw [← hsplit]; exact hInv.nodupUsed
  have hil1 : i ∉ l1 := by
    rw [List.nodup_append] at hndUsed
    exact fun hh => hndUsed.2.2 hh (List.mem_cons_self i l2)
  have hil2 : i ∉ l2 := by
    rw [List.nodup_append] at hndUsed
    exact (List.nodup_cons.mp hndUsed.2.1).1
  have hine : ∀ a, (a ∈ kFirstUsed :: l1 ∨ a ∈ l2 ++ [kLastUsed]) → a ≠ i := by
    intro a ha hai
    subst hai
    rcases ha with h | h
    · rcases List.mem_cons.mp h with h' | h'
      · rw [h'] at hib; have := hib.1; norm_num [kTotalReserved, kFirstUsed] at this
      · exact hil1 h'
    · rcases List.mem_append.mp h with h' | h'
      · exact hil2 h'
      · have h2 : a = kLastUsed := by simpa using h'
        rw [h2] at hib; have := hib.1; norm_num [kTotalReserved, kLastUsed] at this
  -- the shrunken used chain survives the free-list splice
  have hchU3 : chain p3 (kFirstUsed :: (l1 ++ (l2 ++ [kLastUsed]))) := by
    refine chain_congr_elem p2 p3 _ ?_ hchU2
    intro a ha
    have haU : a ∈ kFirstUsed :: l1 ∨ a ∈ l2 ++ [kLastUsed] := by
      rcases List.mem_cons.mp ha with h | h
      · exact Or.inl (by rw [h]; exact List.mem_cons_self _ _)
      · rcases List.mem_append.mp h with h' | h'
        · exact Or.inl (List.mem_cons_of_mem _ h')
        · exact Or.inr h'
    obtain ⟨F, ftl, hFt⟩ : ∃ F ftl, free ++ [kLastFree] = F :: ftl := by
      cases free with
      | nil => exact ⟨kLastFree, [], rfl⟩
      | cons b t => exact ⟨b, t ++ [kLastFree], rfl⟩
    have hFh : (p2.elemAt kFirstFree).next = F := by
      have h := hchF2
      rw [hFt] at h
      exact (List.chain'_cons.mp h).1.1
    have hFm : F ∈ kFirstFree :: (free ++ [kLastFree]) := by
      rw [hFt]
      exact List.mem_cons_of_mem _ (List.mem_cons_self F ftl)
    refine elemAt_AddToListFront_ne p2 i kFirstFree a ?_ ?_ ?_
    · rw [hFh]
      exact fun hh => hfneU F hFm a haU hh.symm
    · exact hine a haU
    · intro hh
      exact hfneU kFirstFree (List.mem_cons_self _ _) a haU hh.symm
  -- element-level facts preserved through to the final state
  have huid3 : ∀ j, (p3.elemAt j).unique_id = (p1.elemAt j).unique_id := fun j => by
    rw [hp3, uid_AddToListFront, hp2, uid_RemoveFromList]
  have hdata3 : ∀ j, (p3.elemAt j).data = (p1.elemAt j).data := fun j => by
    rw [hp3, data_AddToListFront, hp2, data_RemoveFromList]
  have hlen3 : p3.elements_.length = p.elements_.length := by
    rw [hp3, size_AddToListFront, hlen2]
  have hact3 : p3.active_count_ = p.active_count_ := by
    rw [hp3, active_AddToListFront, hp2, active_RemoveFromList, hp1, active_modifyEl]
  have hcnt3 : p3.next_unique_id_ = p.next_unique_id_ := by
    rw [hp3, counter_AddToListFront, hp2, counter_RemoveFromList, hp1, counter_modifyEl]
  have hlactive : p.active_count_ = l1.length + l2.length + 1 := by
    rw [hInv.activeEq, hsplit]
    simp [Nat.add_comm, Nat.add_assoc, Nat.add_left_comm]
  refine ⟨_, hfe, ?_, ?_, ?_, ?_, ?_, ?_, ?_⟩
  · -- the invariant for the new state
    refine ⟨?_, ?_, ?_, ?_, ?_, ?_, ?_, ?_, ?_, ?_, ?_, ?_⟩
    · -- used chain
      show chain _ (kFirstUsed :: ((l1 ++ l2) ++ [kLastUsed]))
      rw [List.append_assoc]
      exact hchU3
    · -- free chain
      exact hchF3
    · -- nodup
      have hperm : ((l1 ++ i :: l2) ++ free).Perm ((l1 ++ l2) ++ (i :: free)) := by
        have h1 : (l1 ++ i :: l2).Perm (i :: (l1 ++ l2)) := List.perm_middle
        have h2 := h1.append_right free
        refine h2.trans ?_
        have h3 : ((l1 ++ l2) ++ (i :: free)).Perm (i :: ((l1 ++ l2) ++ free)) :=
          List.perm_middle
        exact h3.symm
      refine hperm.nodup ?_
      rw [← hsplit]
      exact hInv.nodup
    · -- bounds
      intro a ha
      rw [show ({ p3 with active_count_ := p3.active_count_ - 1 } :
        VectorPool T).elements_.length = p3.elements_.length from rfl, hlen3]
      have : a ∈ used ++ free := by
        rcases List.mem_append.mp ha with h | h
        · rw [hsplit]
          rcases List.mem_append.mp h with h' | h'
          · exact List.mem_append_left _ (List.mem_append_left _ h')
          · exact List.mem_append_left _ (List.mem_append_right _ (List.mem_cons_of_mem i h'))
        · rcases List.mem_cons.mp h with h' | h'
          · rw [h']; exact List.mem_append_left _ him
          · exact List.mem_append_right _ h'
      exact hInv.bounds a this
    · -- cover
      intro a halt ha4
      rw [show ({ p3 with active_count_ := p3.active_count_ - 1 } :
        VectorPool T).elements_.length = p3.elements_.length from rfl, hlen3] at halt
      have := hInv.cover a halt ha4
      rcases List.mem_append.mp this with h | h
      · rw [hsplit] at h
        rcases List.mem_append.mp h with h' | h'
        · exact List.mem_append_left _ (List.mem_append_left _ h')
        · rcases List.mem_cons.mp h' with h2 | h2
          · exact List.mem_append_right _ (by rw [h2]; exact List.mem_cons_self i free)
          · exact List.mem_append_left _ (List.mem_append_right _ h2)
      · exact List.mem_append_right _ (List.mem_cons_of_mem i h)
    · -- remaining used slots stay allocated
      intro a ha
      show ((p3.elemAt a).unique_id ≠ kInvalidId)
      rw [huid3 a, hE1ne a (hine a (by
        rcases List.mem_append.mp ha with h | h
        · exact Or.inl (List.mem_cons_of_mem _ h)
        · exact Or.inr (List.mem_append_left _ h)))]
      refine hInv.usedAlloc a ?_
      rw [hsplit]
      rcases List.mem_append.mp ha with h | h
      · exact List.mem_append_left _ h
      · exact List.mem_append_right _ (List.mem_cons_of_mem i h)
    · -- freed slot and old free slots unallocated
      intro a ha
      show ((p3.elemAt a).unique_id = kInvalidId)
      rw [huid3 a]
      rcases List.mem_cons.mp ha with h | h
      · rw [h, hE1i]
      · have hai : a ≠ i := fun hh => hdisj i him (hh ▸ h)
        rw [hE1ne a hai]
        exact hInv.freeUnalloc a h
    · -- sentinels
      intro a ha
      show ((p3.elemAt a).unique_id = kInvalidId)
      rw [huid3 a]
      have hai : a ≠ i := by
        intro hh
        rw [hh] at ha
        have := hib.1
        omega
      rw [hE1ne a hai]
      exact hInv.sentinelUnalloc a ha
    · -- active count
      show p3.active_count_ - 1 = (l1 ++ l2).length
      rw [hact3, hlactive]
      simp
    · -- counter unchanged
      show p3.next_unique_id_ ≠ kInvalidId
      rw [hcnt3]
      exact hInv.uidPos
    · show p3.next_unique_id_ < idMod
      rw [hcnt3]
      exact hInv.uidLt
    · show kTotalReserved ≤ ({ p3 with active_count_ := p3.active_count_ - 1 } :
        VectorPool T).elements_.length
      rw [show ({ p3 with active_count_ := p3.active_count_ - 1 } :
        VectorPool T).elements_.length = p3.elements_.length from rfl, hlen3]
      exact hmin
  · show p3.elements_.length = p.elements_.length
    exact hlen3
  · show (p3.elemAt i).unique_id = kInvalidId
    rw [huid3 i, hE1i]
  · show (p3.elemAt i).data = (default : T)
    rw [hdata3 i, hE1i]
  · intro j hj
    show (p3.elemAt j).unique_id = _
    rw [huid3 j, hE1ne j hj]
  · show p3.next_unique_id_ = p.next_unique_id_
    exact hcnt3
  · show p3.active_count_ - 1 + 1 = p.active_count_
    rw [hact3, hlactive]
    omega

theorem walkAux_stop (p : VectorPool T) (stop fuel : Nat) :
    walkAux p stop fuel stop = [] := by
  cases fuel <;> simp [walkAux]

theorem walkAux_eq (p : VectorPool T) (stop : Nat) :
    ∀ (l : List Nat) (fuel start : Nat),
      (l ++ [stop]).head? = some start →
      chain p (l ++ [stop]) → stop ∉ l → l.length ≤ fuel →
      walkAux p stop fuel start = l
  | [], fuel, start, hhead, _, _, _ => by
    have hs : start = stop := by simpa using hhead.symm
    rw [hs]
    exact walkAux_stop p stop fuel
  | a :: t, fuel, start, hhead, hch, hstop, hfuel => by
    have hsa : start = a := by simpa using hhead.symm
    subst hsa
    have hane : start ≠ stop := fun hh => hstop (hh ▸ List.mem_cons_self start t)
    obtain ⟨f, hf⟩ : ∃ f, fuel = f + 1 := by
      cases fuel with
      | zero => simp at hfuel
      | succ f => exact ⟨f, rfl⟩
    subst hf
    obtain ⟨b, btl, hbt⟩ : ∃ b btl, t ++ [stop] = b :: btl := by
      cases t with
      | nil => exact ⟨stop, [], rfl⟩
      | cons c u => exact ⟨c, u ++ [stop], rfl⟩
    have hnext : (p.elemAt start).next = b := by
      have h : chain p (start :: (t ++ [stop])) := hch
      rw [hbt] at h
      exact (List.chain'_cons.mp h).1.1
    show (if start = stop then [] else
      start :: walkAux p stop f (p.elemAt start).next) = start :: t
    rw [if_neg hane, hnext]
    congr 1
    refine walkAux_eq p stop t f b ?_ ?_ ?_ ?_
    · rw [hbt]; rfl
    · exact (List.chain'_cons'.mp hch).2
    · exact fun hh => hstop (List.mem_cons_of_mem start hh)
    · simpa using Nat.le_of_succ_le_succ hfuel

theorem length_le_of_nodup_lt (l : List Nat) (n : Nat) (hnd : l.Nodup)
    (hb : ∀ i ∈ l, i < n) : l.length ≤ n := by
  classical
  have h1 : l.toFinset ⊆ Finset.range n := fun a ha =>
    Finset.mem_range.mpr (hb a (List.mem_toFinset.mp ha))
  have h2 := Finset.card_le_card h1
  rwa [List.toFinset_card_of_nodup hnd, Finset.card_range] at h2

/-- Under the invariant, forward iteration from `begin()` to `end()` visits
exactly the abstract used list. -/
theorem usedWalk_eq (p : VectorPool T) (used free : List Nat) (hInv : Inv p used free) :
    p.usedWalk = used := by
  unfold usedWalk beginIt
  have hch : chain p (used ++ [kLastUsed]) := hInv.chainU.tail
  obtain ⟨U, utl, hut⟩ : ∃ U utl, used ++ [kLastUsed] = U :: utl := by
    cases used with
    | nil => exact ⟨kLastUsed, [], rfl⟩
    | cons b tt => exact ⟨b, tt ++ [kLastUsed], rfl⟩
  have hstart : (p.elemAt kFirstUsed).next = U := by
    have h : chain p (kFirstUsed :: (U :: utl)) := by
      rw [← hut]; exact hInv.chainU
    exact (List.chain'_cons.mp h).1.1
  rw [hstart]
  refine walkAux_eq p kLastUsed used (p.elements_.length + 1) U ?_ hch ?_ ?_
  · rw [hut]; rfl
  · intro hh
    have := (hInv.bounds kLastUsed (List.mem_append_left _ hh)).1
    norm_num [kTotalReserved, kLastUsed] at this
  · have := length_le_of_nodup_lt used p.elements_.length hInv.nodupUsed
      (fun i hi => (hInv.bounds i (List.mem_append_left _ hi)).2)
    omega

/-- Under the invariant, walking the free list visits exactly the abstract
free list. -/
theorem freeWalk_eq (p : VectorPool T) (used free : List Nat) (hInv : Inv p used free) :
    p.freeWalk = free := by
  unfold freeWalk
  have hch : chain p (free ++ [kLastFree]) := hInv.chainF.tail
  obtain ⟨U, utl, hut⟩ : ∃ U utl, free ++ [kLastFree] = U :: utl := by
    cases free with
    | nil => exact ⟨kLastFree, [], rfl⟩
    | cons b tt => exact ⟨b, tt ++ [kLastFree], rfl⟩
  have hstart : (p.elemAt kFirstFree).next = U := by
    have h : chain p (kFirstFree :: (U :: utl)) := by
      rw [← hut]; exact hInv.chainF
    exact (List.chain'_cons.mp h).1.1
  rw [hstart]
  refine walkAux_eq p kLastFree free (p.elements_.length + 1) U ?_ hch ?_ ?_
  · rw [hut]; rfl
  · intro hh
    have := (hInv.bounds kLastFree (List.mem_append_right _ hh)).1
    norm_num [kTotalReserved, kLastFree] at this
  · have := length_le_of_nodup_lt free p.elements_.length hInv.nodupFree
      (fun i hi => (hInv.bounds i (List.mem_append_right _ hi)).2)
    omega

/-- The freshly constructed pool satisfies the invariant with both lists
empty. -/
theorem Inv_init : Inv (init (T := T)) [] [] := by
  refine ⟨?_, ?_, ?_, ?_, ?_, ?_, ?_, ?_, ?_, ?_, ?_, ?_⟩
  · exact List.chain'_pair.mpr ⟨rfl, rfl⟩
  · exact List.chain'_pair.mpr ⟨rfl, rfl⟩
  · exact List.nodup_nil
  · intro i hi; simp at hi
  · intro i hlt h4
    have hlen : (init (T := T)).elements_.length = 4 := rfl
    have h4' : kTotalReserved = 4 := rfl
    omega
  · intro i hi; simp at hi
  · intro i hi; simp at hi
  · intro i hi
    have h4' : kTotalReserved = 4 := rfl
    rw [h4'] at hi
    interval_cases i <;> rfl
  · rfl
  · exact Nat.one_ne_zero
  · show (1 : Nat) < idMod
    norm_num [idMod]
  · show kTotalReserved ≤ (4 : Nat)
    norm_num [kTotalReserved]

/-- A slot with a live (non-reserved) generation is on the used list. -/
theorem mem_used_of_uid_ne (p : VectorPool T) (used free : List Nat) (i : Nat)
    (hInv : Inv p used free) (h : (p.elemAt i).unique_id ≠ kInvalidId) : i ∈ used := by
  by_cases hlt : i < p.elements_.length
  · by_cases h4 : kTotalReserved ≤ i
    · rcases List.mem_append.mp (hInv.cover i hlt h4) with hm | hm
      · exact hm
      · exact absurd (hInv.freeUnalloc i hm) h
    · exact absurd (hInv.sentinelUnalloc i (by omega)) h
  · exfalso
    apply h
    unfold elemAt
    rw [List.get?_eq_none.mpr (by omega)]
    rfl

end VectorPool

/-- One operation of a pool trace. -/
inductive PoolOp where
  | alloc (loc : AllocationLocation)
  | free (index : Nat)
deriving DecidableEq, Repr

namespace VectorPool

variable {T : Type} [Inhabited T]

/-- Run one trace operation; a `free` of an unallocated slot fails the assert. -/
def stepOp (p : VectorPool T) : PoolOp → Option (VectorPool T)
  | PoolOp.alloc loc => some (p.GetNewElement loc).1
  | PoolOp.free i => p.FreeElement i

/-- Run a trace of operations from the freshly constructed pool. -/
def runOps (ops : List PoolOp) : Option (VectorPool T) :=
  List.foldlM stepOp init ops

/-- Number of `GetNewElement` calls in a trace. -/
def countAllocs (ops : List PoolOp) : Nat :=
  ops.countP (fun op => match op with | PoolOp.alloc _ => true | _ => false)

/-- Number of `FreeElement` calls in a trace. -/
def countFrees (ops : List PoolOp) : Nat :=
  ops.countP (fun op => match op with | PoolOp.free _ => true | _ => false)

theorem runOps_inv :
    ∀ (ops : List PoolOp) (p0 : VectorPool T) (used free : List Nat) (q : VectorPool T),
      Inv p0 used free →
      List.foldlM stepOp p0 ops = some q →
      ∃ used' free', Inv q used' free' ∧
        used'.length + countFrees ops = used.length + countAllocs ops
  | [], p0, used, free, q, hInv, hrun => by
    have hq : p0 = q := by simpa [List.foldlM] using hrun
    exact ⟨used, free, hq ▸ hInv, by simp [countFrees, countAllocs]⟩
  | op :: rest, p0, used, free, q, hInv, hrun => by
    rw [List.foldlM_cons] at hrun
    obtain ⟨p1, h1, h2⟩ := Option.bind_eq_some.mp hrun
    cases op with
    | alloc loc =>
      have hp1 : p1 = (p0.GetNewElement loc).1 := by
        simpa [stepOp] using h1.symm
      subst hp1
      cases hfree : free with
      | nil =>
        rw [hfree] at hInv
        have hspec := GetNewElement_spec_grow p0 used hInv loc
        obtain ⟨used', free', hInv', hlen⟩ :=
          runOps_inv rest _ _ _ q hspec.2.1 h2
        refine ⟨used', free', hInv', ?_⟩
        have hua : (usedAfter loc used p0.elements_.length).length = used.length + 1 := by
          cases loc <;> simp [usedAfter]
        rw [hua] at hlen
        have hc1 : countAllocs (PoolOp.alloc loc :: rest) = countAllocs rest + 1 := by
          simp [countAllocs, List.countP_cons]
        have hc2 : countFrees (PoolOp.alloc loc :: rest) = countFrees rest := by
          simp [countFrees, List.countP_cons]
        rw [hc1, hc2]
        omega
      | cons x ft =>
        rw [hfree] at hInv
        have hspec := GetNewElement_spec_reuse p0 used ft x hInv loc
        obtain ⟨used', free', hInv', hlen⟩ :=
          runOps_inv rest _ _ _ q hspec.2.1 h2
        refine ⟨used', free', hInv', ?_⟩
        have hua : (usedAfter loc used x).length = used.length + 1 := by
          cases loc <;> simp [usedAfter]
        rw [hua] at hlen
        have hc1 : countAllocs (PoolOp.alloc loc :: rest) = countAllocs rest + 1 := by
          simp [countAllocs, List.countP_cons]
        have hc2 : countFrees (PoolOp.alloc loc :: rest) = countFrees rest := by
          simp [countFrees, List.countP_cons]
        rw [hc1, hc2]
        omega
    | free i =>
      have huid : (p0.elemAt i).unique_id ≠ kInvalidId := by
        intro hh
        rw [show stepOp p0 (PoolOp.free i) = p0.FreeElement i from rfl] at h1
        unfold FreeElement at h1
        rw [if_pos hh] at h1
        exact Option.noConfusion h1
      have him : i ∈ used := mem_used_of_uid_ne p0 used free i hInv huid
      obtain ⟨l1, l2, hsplit⟩ := List.append_of_mem him
      obtain ⟨q1, hq1, hInv1, _, _, _, _, _, hact⟩ :=
        FreeElement_spec p0 used free i hInv l1 l2 hsplit
      have hp1 : p1 = q1 := by
        rw [show stepOp p0 (PoolOp.free i) = p0.FreeElement i from rfl, hq1] at h1
        exact (Option.some_inj.mp h1).symm
      subst hp1
      obtain ⟨used', free', hInv', hlen⟩ := runOps_inv rest _ _ _ q hInv1 h2
      refine ⟨used', free', hInv', ?_⟩
      have hlu : used.length = (l1 ++ l2).length + 1 := by
        rw [hsplit]; simp; omega
      have hc1 : countAllocs (PoolOp.free i :: rest) = countAllocs rest := by
        simp [countAllocs, List.countP_cons]
      have hc2 : countFrees (PoolOp.free i :: rest) = countFrees rest + 1 := by
        simp [countFrees, List.countP_cons]
      rw [hc1, hc2]
      omega

end VectorPool

/-- Embeds `kInvalidComponentIndex` from entity_common.h: `uint16_t(-1)`. -/
def kInvalidComponentIndex : Nat := 2 ^ 16 - 1

/-- Modulus of `ComponentIndex` (`uint16_t`): applied where the source performs
`static_cast<ComponentIndex>` narrowing. -/
def componentIndexMod : Nat := 2 ^ 16

/-- Embeds `Component<T>::ComponentData`: the payload plus a back-reference to the
owning entity.  An `EntityRef` is modelled by the entity id it designates
(`none` = default-constructed null reference), which is the only part of it the
Component code consults (`entity->entity_id()`). -/
structure ComponentData (T : Type) where
  entity : Option Nat
  data : T
deriving DecidableEq, Repr

instance (T : Type) [Inhabited T] : Inhabited (ComponentData T) :=
  ⟨{ entity := none, data := default }⟩

/-- Embeds `Component<T>`: a `VectorPool` of `ComponentData` plus the entity-id to
slot-index map (`std::unordered_map<EntityIdType, ComponentIndex>`, modelled
extensionally as a function). -/
structure Component (T : Type) where
  component_data_ : VectorPool (ComponentData T)
  component_index_lookup_ : Nat → Option Nat

namespace Component

variable {T : Type} [Inhabited T]

/-- A freshly constructed `Component`: empty pool, empty index. -/
def empty : Component T :=
  { component_data_ := VectorPool.init, component_index_lookup_ := fun _ => none }

/-- Embeds `GetComponentDataIndex`: the recorded slot index, or
`kInvalidComponentIndex` when the map has no entry. -/
def GetComponentDataIndex (c : Component T) (eid : Nat) : Nat :=
  match c.component_index_lookup_ eid with
  | some v => v
  | none => kInvalidComponentIndex

/-- Embeds `HasDataForEntity`. -/
def HasDataForEntity (c : Component T) (eid : Nat) : Bool :=
  decide (c.GetComponentDataIndex eid ≠ kInvalidComponentIndex)

/-- Embeds `GetComponentData(size_t)`: the returned `T*` is modelled by the slot index
it points into (`none` = `nullptr`).  The out-of-range branch sits behind
`GetElementData`'s assert. -/
def GetComponentDataAt (c : Component T) (data_index : Nat) : Option Nat :=
  if data_index = kInvalidComponentIndex then none
  else if data_index < c.component_data_.elements_.length then some data_index
  else none

/-- Embeds `GetComponentData(const EntityRef&)`. -/
def GetComponentData (c : Component T) (eid : Nat) : Option Nat :=
  let data_index := c.GetComponentDataIndex eid
  if data_index ≥ c.component_data_.elements_.length then none
  else c.GetComponentDataAt data_index

/-- The state `AddEntity` builds for a fresh entity just before invoking the
`InitEntity` hook: slot allocated, index entry recorded (as a `uint16_t`), and
the slot's entity back-reference written. -/
def AddEntityPreHook (c : Component T) (eid : Nat)
    (alloc_location : AllocationLocation) : Component T :=
  let step := c.component_data_.GetNewElement alloc_location
  let index := step.2.index_ % componentIndexMod
  { component_data_ :=
      step.1.modifyEl index
        (fun el => { el with data := { el.data with entity := some eid } }),
    component_index_lookup_ :=
      fun k => if k = eid then some index else c.component_index_lookup_ k }

/-- Embeds `AddEntity(entity, alloc_location)`.  The virtual `InitEntity` hook is a
parameter; the returned `Option Nat` is the payload pointer (slot index), and
the `Bool` records whether the hook was invoked. -/
def AddEntity (hook : Component T → Nat → Component T) (c : Component T) (eid : Nat)
    (alloc_location : AllocationLocation) : Component T × Option Nat × Bool :=
  if c.HasDataForEntity eid then
    (c, c.GetComponentData eid, false)
  else
    let index := (c.component_data_.GetNewElement alloc_location).2.index_ %
      componentIndexMod
    (hook (AddEntityPreHook c eid alloc_location) eid, some index, true)

/-- The base-class `InitEntity`/`CleanupEntity` hook: a no-op. -/
def hookNone : Component T → Nat → Component T := fun c _ => c

/-- Embeds `RemoveEntity(entity)`: asserts the entity is attached, runs the
`CleanupEntity` hook, frees the slot found under the entity id after the hook
ran, and erases the index entry.  The `Bool` records that the hook was
invoked. -/
def RemoveEntity (hook : Component T → Nat → Component T) (c : Component T)
    (eid : Nat) : Option (Component T × Bool) :=
  if c.HasDataForEntity eid then
    let c1 := hook c eid
    match c1.component_data_.FreeElement (c1.GetComponentDataIndex eid) with
    | none => none
    | some pool1 =>
      some ({ component_data_ := pool1,
              component_index_lookup_ :=
                fun k => if k = eid then none else c1.component_index_lookup_ k },
        true)
  else
    none

end Component

/-- Modelled from the spec: `EntityManager::UpdateComponents` and
`RegisterComponentHelper` are declared in entity_manager.h but defined in
entity_manager.cpp, which is not among the provided sources.  Spec:
"`RegisterComponent(store) -> id`: appends to the ordered registry, assigns
`id = current registry length`"; "`UpdateComponents(dt)`: calls
`UpdateAllEntities(dt)` on every registered store, once, strictly in
registration order"; "within one store, entities update in used-list
(insertion) order".  A registered store is modelled by its integer id plus the
pool its `UpdateAllEntities` iterates, and an update pass by the log of
(store id, slot index) events it emits. -/
def RegisterComponent (registry : List (Nat × VectorPool Nat))
    (pool : VectorPool Nat) : List (Nat × VectorPool Nat) × Nat :=
  (registry ++ [(registry.length, pool)], registry.length)

/-- Modelled from the spec: one store's `UpdateAllEntities(dt)` pass, logged as
the sequence of (store id, slot) events in iteration (used-list) order; the
iteration itself is the real `begin()`/`end()` walk of the pool. -/
def UpdateAllEntitiesLog (storeId : Nat) (pool : VectorPool Nat) : List (Nat × Nat) :=
  pool.usedWalk.map (fun i => (storeId, i))

/-- Modelled from the spec: `UpdateComponents(dt)` invokes every registered
store's `UpdateAllEntities` in registry order; the observable behaviour is the
concatenation of the per-store logs. -/
def UpdateComponentsLog (registry : List (Nat × VectorPool Nat)) : List (Nat × Nat) :=
  (registry.map (fun s => UpdateAllEntitiesLog s.1 s.2)).join

namespace VectorPool

variable {T : Type} [Inhabited T]

theorem Inv_iff (p : VectorPool T) (used free : List Nat) :
    Inv p used free ↔
      (chain p (kFirstUsed :: (used ++ [kLastUsed])) ∧
       chain p (kFirstFree :: (free ++ [kLastFree])) ∧
       (used ++ free).Nodup ∧
       (∀ i ∈ used ++ free, kTotalReserved ≤ i ∧ i < p.elements_.length) ∧
       (∀ i < p.elements_.length, kTotalReserved ≤ i → i ∈ used ++ free) ∧
       (∀ i ∈ used, (p.elemAt i).unique_id ≠ kInvalidId) ∧
       (∀ i ∈ free, (p.elemAt i).unique_id = kInvalidId) ∧
       (∀ i < kTotalReserved, (p.elemAt i).unique_id = kInvalidId) ∧
       p.active_count_ = used.length ∧
       p.next_unique_id_ ≠ kInvalidId ∧
       p.next_unique_id_ < idMod ∧
       kTotalReserved ≤ p.elements_.length) := by
  constructor
  · intro h
    exact ⟨h.chainU, h.chainF, h.nodup, h.bounds, h.cover, h.usedAlloc, h.freeUnalloc,
      h.sentinelUnalloc, h.activeEq, h.uidPos, h.uidLt, h.minSize⟩
  · intro h
    exact ⟨h.1, h.2.1, h.2.2.1, h.2.2.2.1, h.2.2.2.2.1, h.2.2.2.2.2.1, h.2.2.2.2.2.2.1,
      h.2.2.2.2.2.2.2.1, h.2.2.2.2.2.2.2.2.1, h.2.2.2.2.2.2.2.2.2.1,
      h.2.2.2.2.2.2.2.2.2.2.1, h.2.2.2.2.2.2.2.2.2.2.2⟩

instance (p : VectorPool T) (used free : List Nat) : Decidable (Inv p used free) :=
  decidable_of_iff _ (Inv_iff p used free).symm

theorem GetElement_eq_some (p : VectorPool T) (i : Nat) (h : i < p.elements_.length) :
    p.GetElement i = some (p.elemAt i) := by
  unfold GetElement elemAt
  cases hg : p.elements_.get? i with
  | none => exact absurd (List.get?_eq_none.mp hg) (by omega)
  | some a => rfl

theorem IsValid_eq (p : VectorPool T) (r : VectorPoolReference)
    (h : r.index_ < p.elements_.length) :
    r.IsValid p = (r.hasContainer && ((p.elemAt r.index_).unique_id == r.unique_id_)) := by
  unfold VectorPoolReference.IsValid
  rw [GetElement_eq_some p r.index_ h]

end VectorPool

namespace VectorPool

variable {T : Type} [Inhabited T]

/-- Embeds `ref->value = v` through `VectorPoolReference::operator->`, which asserts
`IsValid()` before handing out the payload pointer. -/
def storeVal (p : VectorPool Nat) (r : VectorPoolReference) (v : Nat) :
    Option (VectorPool Nat) :=
  if r.IsValid p then some (p.modifyEl r.index_ (fun e => { e with data := v })) else none

/-- Embeds `ref = pool.GetNewElement(loc); ref->value = v`. -/
def allocAndSet (p : VectorPool Nat) (loc : AllocationLocation) (v : Nat) :
    Option (VectorPool Nat) :=
  let s := p.GetNewElement loc
  storeVal s.1 s.2 v

/-- The even-freeing loop of the `AllocAndFree_ManyElements` unit test:
`for (iter = begin; iter != end; ++iter) { ref = iter.ToReference(); ++iter;
pool.FreeElement(ref); }` — the inner increment reads pre-free links, the loop
increment post-free links. -/
def freeAlternate : Nat → VectorPool Nat → PoolIterator → Option (VectorPool Nat)
  | 0, p, _ => some p
  | fuel + 1, p, it =>
    if it = p.endIt then some p
    else
      let r := VectorPoolReference.mk' p it.index_
      let it1 := p.iterNext it
      match p.FreeElementRef r with
      | none => none
      | some p1 => freeAlternate fuel p1 (p1.iterNext it1)

/-- Payload values in forward iteration order. -/
def valuesInOrder (p : VectorPool Nat) : List Nat :=
  p.usedWalk.map (fun i => (p.elemAt i).data)

/-- The stress scenario of claim C5: 100 back-inserts of 0..99, free every
even-valued slot, then 50 front-inserts of 0..49 interleaved with 50
back-inserts of 50..99. -/
def c5Run : Option (List Nat) := do
  let p1 ← (List.range 100).foldlM
    (fun p i => allocAndSet p AllocationLocation.kAddToBack i) VectorPool.init
  let p2 ← freeAlternate (p1.elements_.length + 1) p1 p1.beginIt
  let p3 ← (List.range 50).foldlM (fun p i => do
      let q ← allocAndSet p AllocationLocation.kAddToFront i
      allocAndSet q AllocationLocation.kAddToBack (i + 50)) p2
  some (valuesInOrder p3)

/-- The iteration order the spec demands for the stress scenario. -/
def c5Expected : List Nat :=
  (List.range 50).reverse ++ (List.range 50).map (fun k => 2 * k + 1) ++
    (List.range 50).map (fun k => k + 50)

end VectorPool

open VectorPool

set_option maxRecDepth 8000 in
set_option maxHeartbeats 4000000 in
/-- Claim C5: after inserting values 0..99 with back placement, freeing all
even-valued slots, then inserting 0..49 at the front and 50..99 at the back,
forward iteration from `begin()` to `end()` yields exactly
`[49,...,0] ++ [1,3,...,99] ++ [50,51,...,99]`. -/
theorem C5_stress_scenario_iteration_order : c5Run = some c5Expected := by decide

/-- Claim C9 (amended): two handles into the same pool with the same slot index
compare equal under `operator==` (and not-unequal under `operator!=`) even when
their captured generations differ; in particular a stale handle compares equal
to the fresh handle of the reused slot although only the fresh one is valid and
resolves. -/
theorem C9_handle_equality_ignores_generation :
    (∀ r1 r2 : VectorPoolReference, r1.hasContainer = r2.hasContainer →
      r1.index_ = r2.index_ →
      VectorPoolReference.eq r1 r2 = true ∧ VectorPoolReference.ne r1 r2 = false) ∧
    (let s1 := (VectorPool.init (T := Nat)).GetNewElement AllocationLocation.kAddToBack
     let s2 := (s1.1.FreeElement s1.2.index_).getD s1.1
     let s3 := s2.GetNewElement AllocationLocation.kAddToBack
     VectorPoolReference.eq s1.2 s3.2 = true ∧
     s1.2.unique_id_ ≠ s3.2.unique_id_ ∧
     s1.2.IsValid s3.1 = false ∧ s3.2.IsValid s3.1 = true ∧
     s1.2.ToPointer s3.1 = none ∧ (s3.2.ToPointer s3.1).isSome = true) := by
  constructor
  · intro r1 r2 h1 h2
    constructor
    · simp [VectorPoolReference.eq, h1, h2]
    · simp [VectorPoolReference.ne, VectorPoolReference.eq, h1, h2]
  · decide

/-- Witness for C9: concrete handles with equal container and index but
different generations compare equal. -/
theorem C9_witness :
    ({ hasContainer := true, index_ := 4, unique_id_ := 1 } :
        VectorPoolReference).hasContainer =
      ({ hasContainer := true, index_ := 4, unique_id_ := 2 } :
        VectorPoolReference).hasContainer ∧
    ({ hasContainer := true, index_ := 4, unique_id_ := 1 } :
        VectorPoolReference).index_ =
      ({ hasContainer := true, index_ := 4, unique_id_ := 2 } :
        VectorPoolReference).index_ ∧
    VectorPoolReference.eq
      { hasContainer := true, index_ := 4, unique_id_ := 1 }
      { hasContainer := true, index_ := 4, unique_id_ := 2 } = true ∧
    VectorPoolReference.ne
      { hasContainer := true, index_ := 4, unique_id_ := 1 }
      { hasContainer := true, index_ := 4, unique_id_ := 2 } = false :=
  ⟨by decide, by decide,
    (C9_handle_equality_ignores_generation.1
      { hasContainer := true, index_ := 4, unique_id_ := 1 }
      { hasContainer := true, index_ := 4, unique_id_ := 2 }
      (by decide) (by decide)).1,
    (C9_handle_equality_ignores_generation.1
      { hasContainer := true, index_ := 4, unique_id_ := 1 }
      { hasContainer := true, index_ := 4, unique_id_ := 2 }
      (by decide) (by decide)).2⟩

/-- Counterexample to claim C4 as stated: freeing an already-freed slot through
the `VectorPoolReference` overload of `FreeElement` is silently ignored — the
call returns with the pool unchanged — rather than failing the assertion, even
though the slot is not currently allocated. -/
theorem C4_counterexample_handle_free_silently_ignored :
    (((VectorPool.init (T := Nat)).GetNewElement
        AllocationLocation.kAddToBack).1.FreeElementRef
      ((VectorPool.init (T := Nat)).GetNewElement AllocationLocation.kAddToBack).2).map
      (fun p2 => (p2.elemAt 4).unique_id) = some kInvalidId ∧
    (((VectorPool.init (T := Nat)).GetNewElement
        AllocationLocation.kAddToBack).1.FreeElementRef
      ((VectorPool.init (T := Nat)).GetNewElement AllocationLocation.kAddToBack).2).bind
      (fun p2 => p2.FreeElementRef
        ((VectorPool.init (T := Nat)).GetNewElement AllocationLocation.kAddToBack).2) =
    ((VectorPool.init (T := Nat)).GetNewElement
        AllocationLocation.kAddToBack).1.FreeElementRef
      ((VectorPool.init (T := Nat)).GetNewElement AllocationLocation.kAddToBack).2 := by
  decide

/-- Claim C4 (amended): freeing a slot that is not currently allocated fails
the assertion for the raw-index overload of `FreeElement` and for the iterator
overload, but the `VectorPoolReference` overload first checks `IsValid()` and
silently ignores an invalid handle — including a stale handle after its slot
was already freed — returning with the pool unchanged; through that overload
the assertion is reached only by handles that are still valid, and those with a
non-invalid captured generation always pass it. -/
theorem C4_amended_assert_coverage :
    (∀ (p : VectorPool Nat) (i : Nat),
      (p.elemAt i).unique_id = kInvalidId → p.FreeElement i = none) ∧
    (∀ (p : VectorPool Nat) (it : PoolIterator),
      (p.elemAt it.index_).unique_id = kInvalidId → p.FreeElementIt it = none) ∧
    (∀ (p : VectorPool Nat) (r : VectorPoolReference),
      r.IsValid p = false → p.FreeElementRef r = some p) ∧
    (∀ (p : VectorPool Nat) (r : VectorPoolReference),
      r.IsValid p = true → r.unique_id_ ≠ kInvalidId →
      (p.FreeElementRef r).isSome = true) := by
  refine ⟨?_, ?_, ?_, ?_⟩
  · intro p i h
    unfold VectorPool.FreeElement
    simp [h]
  · intro p it h
    have h1 : p.FreeElement it.index_ = none := by
      unfold VectorPool.FreeElement
      simp [h]
    simp [VectorPool.FreeElementIt, h1]
  · intro p r h
    unfold VectorPool.FreeElementRef
    simp [h]
  · intro p r hv hu
    unfold VectorPool.FreeElementRef
    simp only [hv, if_true]
    unfold VectorPoolReference.IsValid at hv
    rw [Bool.and_eq_true] at hv
    obtain ⟨hc, hm⟩ := hv
    cases hg : p.GetElement r.index_ with
    | none =>
      rw [hg] at hm
      simp at hm
    | some e =>
      rw [hg] at hm
      have he : e.unique_id = r.unique_id_ := by simpa using hm
      have hel : p.elemAt r.index_ = e := by
        unfold VectorPool.elemAt
        unfold VectorPool.GetElement at hg
        rw [hg]
        rfl
      unfold VectorPool.FreeElement
      rw [hel, he]
      simp [hu]

/-- Witness for C4 (amended): on concrete inputs, freeing unallocated slot 4 of
a fresh pool fails by index and by iterator, a null handle is silently ignored,
and a freshly minted valid handle passes the assertion. -/
theorem C4_amended_witness :
    ((VectorPool.init (T := Nat)).elemAt 4).unique_id = kInvalidId ∧
    (VectorPool.init (T := Nat)).FreeElement 4 = none ∧
    (VectorPool.init (T := Nat)).FreeElementIt { index_ := 4 } = none ∧
    (VectorPool.init (T := Nat)).FreeElementRef VectorPoolReference.mkDefault =
      some VectorPool.init ∧
    (((VectorPool.init (T := Nat)).GetNewElement
        AllocationLocation.kAddToBack).1.FreeElementRef
      ((VectorPool.init (T := Nat)).GetNewElement
        AllocationLocation.kAddToBack).2).isSome = true :=
  ⟨by decide,
   C4_amended_assert_coverage.1 VectorPool.init 4 (by decide),
   C4_amended_assert_coverage.2.1 VectorPool.init { index_ := 4 } (by decide),
   C4_amended_assert_coverage.2.2.1 VectorPool.init VectorPoolReference.mkDefault
     (by decide),
   C4_amended_assert_coverage.2.2.2
     ((VectorPool.init (T := Nat)).GetNewElement AllocationLocation.kAddToBack).1
     ((VectorPool.init (T := Nat)).GetNewElement AllocationLocation.kAddToBack).2
     (by decide) (by decide)⟩

/-- Claim C2: for any trace of `GetNewElement` and `FreeElement` calls in which
every free targets a currently allocated slot (so no assertion fires and the
run returns a pool), `active_count()` equals the number of allocations minus
the number of frees, every non-sentinel slot of the backing array belongs to
exactly one of the used list and the free list, and forward iteration from
`begin()` to `end()` visits exactly the currently allocated slots. -/
theorem C2_active_count_partition_iteration (ops : List PoolOp) (q : VectorPool Nat)
    (hrun : runOps ops = some q) :
    q.active_count_ + countFrees ops = countAllocs ops ∧
    (∀ i, kTotalReserved ≤ i → i < q.elements_.length →
      (i ∈ q.usedWalk ∨ i ∈ q.freeWalk) ∧ ¬(i ∈ q.usedWalk ∧ i ∈ q.freeWalk)) ∧
    (∀ i, i ∈ q.usedWalk ↔ (q.elemAt i).unique_id ≠ kInvalidId) := by
  unfold runOps at hrun
  obtain ⟨used, free, hInv, hcount⟩ :=
    runOps_inv ops VectorPool.init [] [] q VectorPool.Inv_init hrun
  have hu : q.usedWalk = used := VectorPool.usedWalk_eq q used free hInv
  have hf : q.freeWalk = free := VectorPool.freeWalk_eq q used free hInv
  have hact : q.active_count_ = used.length := hInv.activeEq
  refine ⟨by rw [hact]; simpa using hcount, ?_, ?_⟩
  · intro i h4 hlen
    rw [hu, hf]
    refine ⟨List.mem_append.mp (hInv.cover i hlen h4), ?_⟩
    rintro ⟨hiu, hif⟩
    exact hInv.disjUF i hiu hif
  · intro i
    rw [hu]
    exact ⟨fun hi => hInv.usedAlloc i hi,
      fun hne => VectorPool.mem_used_of_uid_ne q used free i hInv hne⟩

/-- A small concrete trace: two allocations, a free of the second slot, then a
third allocation that reuses it. -/
def c2Ops : List PoolOp :=
  [PoolOp.alloc AllocationLocation.kAddToBack,
   PoolOp.alloc AllocationLocation.kAddToFront,
   PoolOp.free 5,
   PoolOp.alloc AllocationLocation.kAddToBack]

/-- The pool reached by the trace `c2Ops`. -/
def c2Pool : VectorPool Nat :=
  (runOps c2Ops).getD VectorPool.init

/-- Witness for C2: the concrete trace `c2Ops` runs without assertion failure
and the conclusions hold for the resulting pool. -/
theorem C2_witness :
    runOps c2Ops = some c2Pool ∧
    (c2Pool.active_count_ + countFrees c2Ops = countAllocs c2Ops ∧
     (∀ i, kTotalReserved ≤ i → i < c2Pool.elements_.length →
       (i ∈ c2Pool.usedWalk ∨ i ∈ c2Pool.freeWalk) ∧
       ¬(i ∈ c2Pool.usedWalk ∧ i ∈ c2Pool.freeWalk)) ∧
     (∀ i, i ∈ c2Pool.usedWalk ↔ (c2Pool.elemAt i).unique_id ≠ kInvalidId)) :=
  ⟨by decide, C2_active_count_partition_iteration c2Ops c2Pool (by decide)⟩

/-- Claim C3: `GetNewElement` reuses the head of the free list when the free
list is non-empty and otherwise grows the backing array by exactly one slot;
the chosen slot is moved into the used list at the front (`kAddToFront`) or
back (`kAddToBack`), its payload is default-reconstructed in place, and it is
stamped with a fresh generation that is never the reserved invalid value, the
counter advancing by `AllocateUniqueId` which skips the invalid value on
wraparound; and because `FreeElement` prepends freed slots to the free-list
front, the slot reused by the next allocation is the most recently freed one. -/
theorem C3_allocation_policy (p : VectorPool Nat) (used free : List Nat)
    (hInv : VectorPool.Inv p used free) (loc : AllocationLocation) :
    (∀ x ft, free = x :: ft →
      usedAfter AllocationLocation.kAddToFront used x = x :: used ∧
      usedAfter AllocationLocation.kAddToBack used x = used ++ [x] ∧
      (p.GetNewElement loc).2.index_ = x ∧
      (p.GetNewElement loc).1.elements_.length = p.elements_.length ∧
      (p.GetNewElement loc).1.usedWalk = usedAfter loc used x ∧
      (p.GetNewElement loc).1.freeWalk = ft ∧
      ((p.GetNewElement loc).1.elemAt x).data = (default : Nat) ∧
      ((p.GetNewElement loc).1.elemAt x).unique_id = p.next_unique_id_ ∧
      ((p.GetNewElement loc).1.elemAt x).unique_id ≠ kInvalidId ∧
      (p.GetNewElement loc).1.next_unique_id_ = stepId p.next_unique_id_ ∧
      (p.GetNewElement loc).1.next_unique_id_ ≠ kInvalidId) ∧
    (free = [] →
      (p.GetNewElement loc).2.index_ = p.elements_.length ∧
      (p.GetNewElement loc).1.elements_.length = p.elements_.length + 1 ∧
      (p.GetNewElement loc).1.usedWalk = usedAfter loc used p.elements_.length ∧
      (p.GetNewElement loc).1.freeWalk = [] ∧
      ((p.GetNewElement loc).1.elemAt p.elements_.length).data = (default : Nat) ∧
      ((p.GetNewElement loc).1.elemAt p.elements_.length).unique_id ≠ kInvalidId ∧
      (p.GetNewElement loc).1.next_unique_id_ ≠ kInvalidId) ∧
    (∀ l1 i l2, used = l1 ++ i :: l2 →
      ∃ q, p.FreeElement i = some q ∧
        q.freeWalk = i :: free ∧
        (q.GetNewElement loc).2.index_ = i) := by
  refine ⟨?_, ?_, ?_⟩
  · intro x ft hfree
    subst hfree
    obtain ⟨h1, h2, h3, h4, h5, h6, h7, h8⟩ :=
      VectorPool.GetNewElement_spec_reuse p used ft x hInv loc
    refine ⟨rfl, rfl, by rw [h1], h3, VectorPool.usedWalk_eq _ _ _ h2,
      VectorPool.freeWalk_eq _ _ _ h2, h5, h4, ?_, h7, ?_⟩
    · rw [h4]; exact hInv.uidPos
    · rw [h7]; exact (VectorPool.stepId_pos _).1
  · intro hfree
    subst hfree
    obtain ⟨h1, h2, h3, h4, h5, h6, h7, h8⟩ :=
      VectorPool.GetNewElement_spec_grow p used hInv loc
    refine ⟨by rw [h1], h3, VectorPool.usedWalk_eq _ _ _ h2,
      VectorPool.freeWalk_eq _ _ _ h2, h5, ?_, ?_⟩
    · rw [h4]; exact hInv.uidPos
    · rw [h7]; exact (VectorPool.stepId_pos _).1
  · intro l1 i l2 hsplit
    obtain ⟨q, hq, hInvq, _, _, _, _, _, _⟩ :=
      VectorPool.FreeElement_spec p used free i hInv l1 l2 hsplit
    refine ⟨q, hq, VectorPool.freeWalk_eq _ _ _ hInvq, ?_⟩
    obtain ⟨h1, _⟩ := VectorPool.GetNewElement_spec_reuse q (l1 ++ l2) free i hInvq loc
    rw [h1]

/-- A concrete pool with used list `[4]` and free list `[5]`. -/
def c3Pool : VectorPool Nat :=
  (runOps [PoolOp.alloc AllocationLocation.kAddToBack,
           PoolOp.alloc AllocationLocation.kAddToBack,
           PoolOp.free 5]).getD VectorPool.init

/-- A concrete pool with used list `[4, 5]` and an empty free list. -/
def c3PoolFull : VectorPool Nat :=
  (runOps [PoolOp.alloc AllocationLocation.kAddToBack,
           PoolOp.alloc AllocationLocation.kAddToBack]).getD VectorPool.init

/-- Witness for C3: on concrete pools, allocation reuses free-list head 5,
grows a full pool to slot 6, and after freeing slot 4 the next allocation
reuses exactly slot 4. -/
theorem C3_witness :
    VectorPool.Inv c3Pool [4] [5] ∧
    (c3Pool.GetNewElement AllocationLocation.kAddToBack).2.index_ = 5 ∧
    VectorPool.Inv c3PoolFull [4, 5] [] ∧
    (c3PoolFull.GetNewElement AllocationLocation.kAddToBack).2.index_ = 6 ∧
    (c3Pool.FreeElement 4).map
      (fun q => ((q.GetNewElement AllocationLocation.kAddToFront).2.index_,
        q.freeWalk)) = some (4, [4, 5]) := by
  refine ⟨by decide, ?_, by decide, ?_, ?_⟩
  · exact ((C3_allocation_policy c3Pool [4] [5] (by decide)
      AllocationLocation.kAddToBack).1 5 [] rfl).2.2.1
  · have h := (C3_allocation_policy c3PoolFull [4, 5] [] (by decide)
      AllocationLocation.kAddToBack).2.1 rfl
    rw [h.1]
    decide
  · obtain ⟨q, hq, hfw, hidx⟩ := (C3_allocation_policy c3Pool [4] [5] (by decide)
      AllocationLocation.kAddToFront).2.2 [] 4 [] rfl
    rw [hq]
    simp [hidx, hfw]

/-- Claim C7: `Component::RemoveEntity` asserts that the entity is currently
attached — on an unattached entity it fails the assertion for every hook.  On
an attached entity (with the base `CleanupEntity` hook) it invokes the hook,
frees the entity's slot in the store's pool, and erases the index entry, after
which `HasDataForEntity` is false and `GetComponentData` returns null. -/
theorem C7_detach_contract (c : Component Nat) (eid : Nat) (used free : List Nat)
    (hInv : VectorPool.Inv c.component_data_ used free) :
    (c.HasDataForEntity eid = false →
      ∀ hook, Component.RemoveEntity hook c eid = none) ∧
    (∀ l1 l2, used = l1 ++ c.GetComponentDataIndex eid :: l2 →
      c.HasDataForEntity eid = true →
      ∃ c', Component.RemoveEntity Component.hookNone c eid = some (c', true) ∧
        c'.component_index_lookup_ eid = none ∧
        c'.HasDataForEntity eid = false ∧
        c'.GetComponentData eid = none ∧
        (c'.component_data_.elemAt (c.GetComponentDataIndex eid)).unique_id =
          kInvalidId ∧
        c'.component_data_.active_count_ + 1 = c.component_data_.active_count_) := by
  constructor
  · intro h hook
    simp [Component.RemoveEntity, h]
  · intro l1 l2 hsplit hhas
    obtain ⟨pool1, hfree, hInv1, _, huid, _, _, _, hact⟩ :=
      VectorPool.FreeElement_spec c.component_data_ used free
        (c.GetComponentDataIndex eid) hInv l1 l2 hsplit
    refine ⟨{ component_data_ := pool1,
              component_index_lookup_ :=
                fun k => if k = eid then none
                  else c.component_index_lookup_ k }, ?_, ?_, ?_, ?_, huid, hact⟩
    · unfold Component.RemoveEntity
      rw [hhas, if_pos rfl]
      simp only [Component.hookNone]
      rw [hfree]
    · simp
    · simp [Component.HasDataForEntity, Component.GetComponentDataIndex]
    · have hidx : Component.GetComponentDataIndex
          { component_data_ := pool1,
            component_index_lookup_ :=
              fun k => if k = eid then none
                else c.component_index_lookup_ k } eid = kInvalidComponentIndex := by
        simp [Component.GetComponentDataIndex]
      simp only [Component.GetComponentData, hidx]
      split
      · rfl
      · simp [Component.GetComponentDataAt]

/-- A concrete store: one attached entity (id 7) in slot 4. -/
def c7Comp : Component Nat :=
  { component_data_ := (runOps (T := ComponentData Nat)
      [PoolOp.alloc AllocationLocation.kAddToBack]).getD VectorPool.init,
    component_index_lookup_ := fun k => if k = 7 then some 4 else none }

/-- Witness for C7: detaching unattached entity 9 fails the assertion, while
detaching attached entity 7 runs the hook, leaves it without data, and drops
the active count back to zero. -/
theorem C7_witness :
    VectorPool.Inv c7Comp.component_data_ [4] [] ∧
    c7Comp.HasDataForEntity 9 = false ∧
    c7Comp.HasDataForEntity 7 = true ∧
    Component.RemoveEntity Component.hookNone c7Comp 9 = none ∧
    (Component.RemoveEntity Component.hookNone c7Comp 7).map
      (fun r => (r.2, r.1.HasDataForEntity 7, r.1.GetComponentData 7,
        r.1.component_data_.active_count_ + 1)) = some (true, false, none, 1) := by
  refine ⟨by decide, by decide, by decide, ?_, ?_⟩
  · exact (C7_detach_contract c7Comp 9 [4] [] (by decide)).1 (by decide)
      Component.hookNone
  · obtain ⟨c', h1, h2, h3, h4, h5, h6⟩ :=
      (C7_detach_contract c7Comp 7 [4] [] (by decide)).2 [] [] (by decide) (by decide)
    have hc : c7Comp.component_data_.active_count_ = 1 := by decide
    rw [h1]
    simp only [Option.map_some']
    rw [h3, h4, h6, hc]

/-- Claim C8 (modelled from the spec, since `entity_manager.cpp` is not among
the provided sources): registering stores A, B, C in that order assigns ids 0,
1, 2, and `UpdateComponents` invokes `UpdateAllEntities` exactly once per
store, strictly in registration order — the observable log is A's full block,
then B's, then C's — and within one store entities are visited in used-list
insertion order. -/
theorem C8_update_order (pA pB pC : VectorPool Nat) (uA fA uB fB uC fC : List Nat)
    (hA : VectorPool.Inv pA uA fA) (hB : VectorPool.Inv pB uB fB)
    (hC : VectorPool.Inv pC uC fC) :
    (RegisterComponent [] pA).2 = 0 ∧
    (RegisterComponent (RegisterComponent [] pA).1 pB).2 = 1 ∧
    (RegisterComponent (RegisterComponent (RegisterComponent [] pA).1 pB).1 pC).2
      = 2 ∧
    UpdateComponentsLog
        (RegisterComponent (RegisterComponent (RegisterComponent [] pA).1 pB).1
          pC).1 =
      uA.map (fun i => (0, i)) ++ uB.map (fun i => (1, i)) ++
        uC.map (fun i => (2, i)) := by
  refine ⟨rfl, rfl, rfl, ?_⟩
  show UpdateComponentsLog [(0, pA), (1, pB), (2, pC)] = _
  simp [UpdateComponentsLog, UpdateAllEntitiesLog,
    VectorPool.usedWalk_eq pA uA fA hA, VectorPool.usedWalk_eq pB uB fB hB,
    VectorPool.usedWalk_eq pC uC fC hC]

/-- Concrete store pool with used list `[4, 5]`. -/
def c8A : VectorPool Nat :=
  (runOps [PoolOp.alloc AllocationLocation.kAddToBack,
           PoolOp.alloc AllocationLocation.kAddToBack]).getD VectorPool.init

/-- Concrete store pool with used list `[5, 4]` (front insertion). -/
def c8B : VectorPool Nat :=
  (runOps [PoolOp.alloc AllocationLocation.kAddToBack,
           PoolOp.alloc AllocationLocation.kAddToFront]).getD VectorPool.init

/-- Concrete store pool with used list `[5]` and free list `[4]`. -/
def c8C : VectorPool Nat :=
  (runOps [PoolOp.alloc AllocationLocation.kAddToBack,
           PoolOp.alloc AllocationLocation.kAddToBack,
           PoolOp.free 4]).getD VectorPool.init

/-- Witness for C8: three concrete stores registered in order get ids 0, 1, 2
and produce the concatenated per-store logs in registration order. -/
theorem C8_witness :
    VectorPool.Inv c8A [4, 5] [] ∧ VectorPool.Inv c8B [5, 4] [] ∧
    VectorPool.Inv c8C [5] [4] ∧
    ((RegisterComponent [] c8A).2 = 0 ∧
     (RegisterComponent (RegisterComponent [] c8A).1 c8B).2 = 1 ∧
     (RegisterComponent (RegisterComponent (RegisterComponent [] c8A).1 c8B).1
       c8C).2 = 2 ∧
     UpdateComponentsLog
         (RegisterComponent (RegisterComponent (RegisterComponent [] c8A).1
           c8B).1 c8C).1 =
       [4, 5].map (fun i => (0, i)) ++ [5, 4].map (fun i => (1, i)) ++
         [5].map (fun i => (2, i))) :=
  ⟨by decide, by decide, by decide,
   C8_update_order c8A c8B c8C [4, 5] [] [5, 4] [] [5] [4]
     (by decide) (by decide) (by decide)⟩

namespace VectorPool

variable {T : Type} [Inhabited T]

theorem IsValid_iff (p : VectorPool T) (r : VectorPoolReference) :
    r.IsValid p = true ↔
      (r.hasContainer = true ∧ r.index_ < p.elements_.length ∧
        (p.elemAt r.index_).unique_id = r.unique_id_) := by
  unfold VectorPoolReference.IsValid
  rw [Bool.and_eq_true]
  constructor
  · rintro ⟨hc, hm⟩
    cases hg : p.GetElement r.index_ with
    | none =>
      rw [hg] at hm
      simp at hm
    | some e =>
      rw [hg] at hm
      have hlt : r.index_ < p.elements_.length := by
        unfold GetElement at hg
        obtain ⟨hh, _⟩ := List.get?_eq_some.mp hg
        exact hh
      have he : p.elemAt r.index_ = e := by
        unfold elemAt
        unfold GetElement at hg
        rw [hg]
        rfl
      refine ⟨hc, hlt, ?_⟩
      rw [he]
      simpa using hm
  · rintro ⟨hc, hlt, hu⟩
    refine ⟨hc, ?_⟩
    rw [GetElement_eq_some p r.index_ hlt]
    simpa using hu

theorem FreeElement_facts (p q : VectorPool T) (i : Nat) (h : p.FreeElement i = some q) :
    (p.elemAt i).unique_id ≠ kInvalidId ∧
    q.elements_.length = p.elements_.length ∧
    (q.elemAt i).unique_id = kInvalidId ∧
    (∀ j, j ≠ i → (q.elemAt j).unique_id = (p.elemAt j).unique_id) := by
  unfold FreeElement at h
  by_cases h0 : (p.elemAt i).unique_id = kInvalidId
  · rw [if_pos h0] at h
    exact absurd h (by simp)
  · rw [if_neg h0] at h
    have hi : i < p.elements_.length := by
      by_contra hge
      push_neg at hge
      apply h0
      unfold elemAt
      rw [List.get?_eq_none.mpr (by omega)]
      rfl
    have he : q.elements_ =
        (((p.modifyEl i (fun e =>
            { e with data := (default : T), unique_id := kInvalidId })).RemoveFromList
              i).AddToListFront i kFirstFree).elements_ := by
      have h2 := congrArg VectorPool.elements_ (Option.some.inj h).symm
      exact h2
    have hAt : ∀ j, q.elemAt j =
        (((p.modifyEl i (fun e =>
            { e with data := (default : T), unique_id := kInvalidId })).RemoveFromList
              i).AddToListFront i kFirstFree).elemAt j := by
      intro j
      unfold elemAt
      rw [he]
    refine ⟨h0, ?_, ?_, ?_⟩
    · rw [he, size_AddToListFront, size_RemoveFromList, size_modifyEl]
    · rw [hAt i, uid_AddToListFront, uid_RemoveFromList,
        elemAt_modifyEl_self p i _ hi]
    · intro j hj
      rw [hAt j, uid_AddToListFront, uid_RemoveFromList,
        elemAt_modifyEl_ne p i j _ hj]

end VectorPool

/-- One `GetNewElement`/`FreeElement` pair on the pool's single reusable
slot. -/
def allocFree (p : VectorPool Nat) : VectorPool Nat :=
  let s := p.GetNewElement AllocationLocation.kAddToBack
  (s.1.FreeElement s.2.index_).getD s.1

theorem allocFree_inv (p : VectorPool Nat) (h : VectorPool.Inv p [] [4]) :
    VectorPool.Inv (allocFree p) [] [4] ∧
    (allocFree p).next_unique_id_ = stepId p.next_unique_id_ := by
  obtain ⟨h1, h2, h3, h4, h5, h6, h7, h8⟩ :=
    VectorPool.GetNewElement_spec_reuse p [] [] 4 h AllocationLocation.kAddToBack
  have h2' : VectorPool.Inv (p.GetNewElement AllocationLocation.kAddToBack).1
      [4] [] := h2
  obtain ⟨q2, hfe, hInv2, _, _, _, _, hcnt2, _⟩ :=
    VectorPool.FreeElement_spec (p.GetNewElement AllocationLocation.kAddToBack).1
      [4] [] 4 h2' [] [] rfl
  have hix : (p.GetNewElement AllocationLocation.kAddToBack).2.index_ = 4 := by
    rw [h1]
  have hres : allocFree p = q2 := by
    show (((p.GetNewElement AllocationLocation.kAddToBack).1.FreeElement
        (p.GetNewElement AllocationLocation.kAddToBack).2.index_).getD
      (p.GetNewElement AllocationLocation.kAddToBack).1) = q2
    rw [hix, hfe]
    rfl
  rw [hres]
  refine ⟨hInv2, ?_⟩
  rw [hcnt2, h7]

theorem allocFree_iterate (n : Nat) (p : VectorPool Nat)
    (h : VectorPool.Inv p [] [4]) :
    VectorPool.Inv (allocFree^[n] p) [] [4] ∧
    (allocFree^[n] p).next_unique_id_ =
      (p.next_unique_id_ - 1 + n) % 4294967295 + 1 := by
  induction n generalizing p with
  | zero =>
    simp only [Function.iterate_zero, id_eq]
    refine ⟨h, ?_⟩
    have h1 := h.uidPos
    have h2 := h.uidLt
    have hk : kInvalidId = 0 := rfl
    have hm : idMod = 4294967296 := by norm_num [idMod]
    rw [hk] at h1
    rw [hm] at h2
    omega
  | succ n ih =>
    rw [Function.iterate_succ_apply]
    obtain ⟨hI, hC⟩ := allocFree_inv p h
    obtain ⟨hI2, hC2⟩ := ih (allocFree p) hI
    refine ⟨hI2, ?_⟩
    rw [hC2, hC]
    have h1 := h.uidPos
    have h2 := h.uidLt
    have hk : kInvalidId = 0 := rfl
    have hm : idMod = 4294967296 := by norm_num [idMod]
    rw [hk] at h1
    rw [hm] at h2
    have hs : stepId p.next_unique_id_ = p.next_unique_id_ % 4294967295 + 1 := by
      simp only [stepId, kInvalidId, idMod]
      norm_num
      split <;> omega
    rw [hs]
    omega

/-- The handle minted by the very first allocation: slot 4, generation 1. -/
def c1Handle : VectorPoolReference :=
  ((VectorPool.init (T := Nat)).GetNewElement AllocationLocation.kAddToBack).2

/-- The pool after that first allocation and the free of the handle's slot. -/
def c1Freed : VectorPool Nat :=
  (((VectorPool.init (T := Nat)).GetNewElement
      AllocationLocation.kAddToBack).1.FreeElement c1Handle.index_).getD
    VectorPool.init

/-- Counterexample to claim C1 as stated: the freed handle is invalid, but
after 4294967294 further allocate/free pairs the 32-bit generation counter
wraps back to the handle's captured generation 1 (the counter skips only the
reserved invalid value 0), and the next reallocation of the same slot stamps
generation 1 again — the stale handle then reports valid instead of staying
invalid forever. -/
theorem C1_counterexample_generation_wraparound :
    c1Handle.IsValid c1Freed = false ∧
    c1Handle.IsValid
      ((allocFree^[4294967294] c1Freed).GetNewElement
        AllocationLocation.kAddToBack).1 = true := by
  have hInv0 : VectorPool.Inv c1Freed [] [4] := by decide
  obtain ⟨hI, hC⟩ := allocFree_iterate 4294967294 c1Freed hInv0
  have hcnt0 : c1Freed.next_unique_id_ = 2 := by decide
  have harith : (2 - 1 + 4294967294) % 4294967295 + 1 = 1 := by norm_num
  rw [hcnt0, harith] at hC
  obtain ⟨h1, h2, h3, h4, h5, h6, h7, h8⟩ :=
    VectorPool.GetNewElement_spec_reuse (allocFree^[4294967294] c1Freed) [] [] 4
      hI AllocationLocation.kAddToBack
  refine ⟨by decide, ?_⟩
  rw [VectorPool.IsValid_iff]
  have hlen4 : 4 < (allocFree^[4294967294] c1Freed).elements_.length :=
    (hI.bounds 4 (List.mem_append_right _ (List.mem_cons_self 4 []))).2
  have hhi : c1Handle.index_ = 4 := by decide
  have hhu : c1Handle.unique_id_ = 1 := by decide
  refine ⟨by decide, ?_, ?_⟩
  · rw [hhi, h3]
    exact hlen4
  · rw [hhi, hhu, h4, hC]

open VectorPool in
/-- Claim C1 (amended): a handle resolves exactly when the slot's current
generation equals its captured generation; it is valid immediately after its
allocation, stays valid while other slots are allocated or freed, becomes
invalid immediately after its own slot is freed, and a default-constructed
handle always reports absent.  After the same slot is reallocated the handle
is valid precisely when the new stamp equals its captured generation — which
is false for the next 4294967294 allocations but becomes true when the 32-bit
counter wraps around, so staleness is not permanent. -/
theorem C1_amended_handle_validity (p : VectorPool Nat) (used free : List Nat)
    (hInv : VectorPool.Inv p used free) (loc : AllocationLocation) :
    (∀ r : VectorPoolReference, r.hasContainer = true →
      r.index_ < p.elements_.length →
      (r.IsValid p = true ↔ (p.elemAt r.index_).unique_id = r.unique_id_)) ∧
    (VectorPoolReference.mkDefault.IsValid p = false ∧
     VectorPoolReference.mkDefault.ToPointer p = none) ∧
    ((p.GetNewElement loc).2.IsValid (p.GetNewElement loc).1 = true) ∧
    (∀ r : VectorPoolReference, r.IsValid p = true →
      r.index_ ≠ (p.GetNewElement loc).2.index_ →
      r.IsValid (p.GetNewElement loc).1 = true) ∧
    (∀ (r : VectorPoolReference) (i : Nat) (q : VectorPool Nat),
      p.FreeElement i = some q → r.IsValid p = true → r.index_ ≠ i →
      r.IsValid q = true) ∧
    (∀ (r : VectorPoolReference) (q : VectorPool Nat),
      r.IsValid p = true → p.FreeElement r.index_ = some q →
      r.IsValid q = false) ∧
    (∀ r : VectorPoolReference, r.index_ = (p.GetNewElement loc).2.index_ →
      r.hasContainer = true →
      (r.IsValid (p.GetNewElement loc).1 = true ↔
        r.unique_id_ = p.next_unique_id_)) := by
  obtain ⟨idx, hix, hc, hgen, hlen, hbound, huidx, hothers⟩ :
      ∃ idx, (p.GetNewElement loc).2.index_ = idx ∧
        (p.GetNewElement loc).2.hasContainer = true ∧
        (p.GetNewElement loc).2.unique_id_ = p.next_unique_id_ ∧
        p.elements_.length ≤ (p.GetNewElement loc).1.elements_.length ∧
        idx < (p.GetNewElement loc).1.elements_.length ∧
        ((p.GetNewElement loc).1.elemAt idx).unique_id = p.next_unique_id_ ∧
        (∀ j, j ≠ idx →
          ((p.GetNewElement loc).1.elemAt j).unique_id = (p.elemAt j).unique_id) := by
    cases free with
    | nil =>
      obtain ⟨h1, h2, h3, h4, h5, h6, h7, h8⟩ :=
        VectorPool.GetNewElement_spec_grow p used hInv loc
      exact ⟨p.elements_.length, by rw [h1], by rw [h1], by rw [h1],
        by rw [h3]; omega, by rw [h3]; omega, h4, h6⟩
    | cons x ft =>
      obtain ⟨h1, h2, h3, h4, h5, h6, h7, h8⟩ :=
        VectorPool.GetNewElement_spec_reuse p used ft x hInv loc
      have hxb := hInv.bounds x
        (List.mem_append_right _ (List.mem_cons_self x ft))
      exact ⟨x, by rw [h1], by rw [h1], by rw [h1], by rw [h3],
        by rw [h3]; exact hxb.2, h4, h6⟩
  refine ⟨?_, ⟨rfl, rfl⟩, ?_, ?_, ?_, ?_, ?_⟩
  · intro r hc0 hlt0
    exact ⟨fun h => ((IsValid_iff p r).mp h).2.2,
      fun h => (IsValid_iff p r).mpr ⟨hc0, hlt0, h⟩⟩
  · rw [IsValid_iff]
    exact ⟨hc, by rw [hix]; exact hbound, by rw [hix, hgen]; exact huidx⟩
  · intro r hv hne
    obtain ⟨hc1, hlt1, hu1⟩ := (IsValid_iff p r).mp hv
    rw [hix] at hne
    refine (IsValid_iff _ r).mpr ⟨hc1, by omega, ?_⟩
    rw [hothers r.index_ hne]
    exact hu1
  · intro r i q hfree hv hne
    obtain ⟨_, hlenf, _, hpres⟩ := VectorPool.FreeElement_facts p q i hfree
    obtain ⟨hc1, hlt1, hu1⟩ := (IsValid_iff p r).mp hv
    refine (IsValid_iff q r).mpr ⟨hc1, by omega, ?_⟩
    rw [hpres r.index_ hne]
    exact hu1
  · intro r q hv hfq
    obtain ⟨hnz, _, hzero, _⟩ := VectorPool.FreeElement_facts p q r.index_ hfq
    obtain ⟨hc1, hlt1, hu1⟩ := (IsValid_iff p r).mp hv
    by_contra hvq
    rw [Bool.not_eq_false] at hvq
    obtain ⟨_, _, hu2⟩ := (IsValid_iff q r).mp hvq
    rw [hzero] at hu2
    apply hnz
    rw [hu1, ← hu2]
  · intro r hrix hrc
    constructor
    · intro hvq
      obtain ⟨_, _, hu2⟩ := (IsValid_iff _ r).mp hvq
      rw [hrix, hix, huidx] at hu2
      exact hu2.symm
    · intro hgeq
      refine (IsValid_iff _ r).mpr ⟨hrc, by rw [hrix, hix]; exact hbound, ?_⟩
      rw [hrix, hix, huidx, hgeq]

/-- A concrete pool with used list `[4]`, free list `[5]`, counter 3. -/
def c1Pool : VectorPool Nat :=
  (runOps [PoolOp.alloc AllocationLocation.kAddToBack,
           PoolOp.alloc AllocationLocation.kAddToBack,
           PoolOp.free 5]).getD VectorPool.init

/-- Witness for C1 (amended): on a concrete pool the fresh handle of the next
allocation is valid, the default handle is not, and a handle whose captured
generation equals the stamp of the reallocated slot is valid again. -/
theorem C1_amended_witness :
    VectorPool.Inv c1Pool [4] [5] ∧
    (c1Pool.GetNewElement AllocationLocation.kAddToBack).2.IsValid
      (c1Pool.GetNewElement AllocationLocation.kAddToBack).1 = true ∧
    VectorPoolReference.mkDefault.IsValid c1Pool = false ∧
    ({ hasContainer := true, index_ := 5, unique_id_ := 3 } :
        VectorPoolReference).IsValid
      (c1Pool.GetNewElement AllocationLocation.kAddToBack).1 = true := by
  have h := C1_amended_handle_validity c1Pool [4] [5] (by decide)
    AllocationLocation.kAddToBack
  exact ⟨by decide, h.2.2.1, h.2.1.1,
    (h.2.2.2.2.2.2 { hasContainer := true, index_ := 5, unique_id_ := 3 }
      (by decide) rfl).mpr (by decide)⟩

/-- What `AddEntity` does for an entity with no existing data, in a store whose
pool has fewer than 65535 slots (so the allocated slot index survives the
`uint16_t` truncation and differs from `kInvalidComponentIndex`). -/
theorem AddEntity_fresh_facts (c : Component Nat) (eid : Nat)
    (loc : AllocationLocation) (used free : List Nat)
    (hInv : VectorPool.Inv c.component_data_ used free)
    (hsm : c.component_data_.elements_.length < 65535)
    (h0 : c.HasDataForEntity eid = false) :
    ∃ idx,
      (c.component_data_.GetNewElement loc).2.index_ = idx ∧
      idx ≠ kInvalidComponentIndex ∧
      (∀ hook, Component.AddEntity hook c eid loc =
        (hook (Component.AddEntityPreHook c eid loc) eid, some idx, true)) ∧
      (Component.AddEntityPreHook c eid loc).component_index_lookup_ eid = some idx ∧
      (Component.AddEntityPreHook c eid loc).GetComponentDataIndex eid = idx ∧
      ((Component.AddEntityPreHook c eid loc).component_data_.elemAt idx).data.entity
        = some eid ∧
      (Component.AddEntityPreHook c eid loc).HasDataForEntity eid = true ∧
      (Component.AddEntityPreHook c eid loc).GetComponentData eid = some idx ∧
      (∀ hook, Component.AddEntity hook
          (Component.AddEntityPreHook c eid loc) eid loc =
        (Component.AddEntityPreHook c eid loc, some idx, false)) := by
  obtain ⟨idx, hix, hlt65535, hltlen⟩ :
      ∃ idx, (c.component_data_.GetNewElement loc).2.index_ = idx ∧
        idx < 65535 ∧
        idx < (c.component_data_.GetNewElement loc).1.elements_.length := by
    cases free with
    | nil =>
      obtain ⟨h1, h2, h3, _, _, _, _, _⟩ :=
        VectorPool.GetNewElement_spec_grow c.component_data_ used hInv loc
      exact ⟨c.component_data_.elements_.length, by rw [h1], hsm,
        by rw [h3]; omega⟩
    | cons x ft =>
      obtain ⟨h1, h2, h3, _, _, _, _, _⟩ :=
        VectorPool.GetNewElement_spec_reuse c.component_data_ used ft x hInv loc
      have hxb := hInv.bounds x
        (List.mem_append_right _ (List.mem_cons_self x ft))
      exact ⟨x, by rw [h1], by omega, by rw [h3]; exact hxb.2⟩
  have hcim : componentIndexMod = 65536 := by norm_num [componentIndexMod]
  have hki : kInvalidComponentIndex = 65535 := by norm_num [kInvalidComponentIndex]
  have hne : idx ≠ kInvalidComponentIndex := by omega
  have hidxeq : (c.component_data_.GetNewElement loc).2.index_ % componentIndexMod
      = idx := by
    rw [hix, hcim]
    omega
  have hA : ∀ hook, Component.AddEntity hook c eid loc =
      (hook (Component.AddEntityPreHook c eid loc) eid, some idx, true) := by
    intro hook
    unfold Component.AddEntity
    rw [h0]
    show (hook (Component.AddEntityPreHook c eid loc) eid,
      some ((c.component_data_.GetNewElement loc).2.index_ % componentIndexMod),
      true) = _
    rw [hidxeq]
  have hlook : (Component.AddEntityPreHook c eid loc).component_index_lookup_ eid
      = some idx := by
    unfold Component.AddEntityPreHook
    dsimp only
    rw [if_pos rfl, hidxeq]
  have hGCDI : (Component.AddEntityPreHook c eid loc).GetComponentDataIndex eid
      = idx := by
    unfold Component.GetComponentDataIndex
    rw [hlook]
  have hpool : (Component.AddEntityPreHook c eid loc).component_data_ =
      (c.component_data_.GetNewElement loc).1.modifyEl idx
        (fun el => { el with data := { el.data with entity := some eid } }) := by
    unfold Component.AddEntityPreHook
    dsimp only
    rw [hidxeq]
  have hplen : (Component.AddEntityPreHook c eid loc).component_data_.elements_.length
      = (c.component_data_.GetNewElement loc).1.elements_.length := by
    rw [hpool, VectorPool.size_modifyEl]
  have hback : ((Component.AddEntityPreHook c eid
      loc).component_data_.elemAt idx).data.entity = some eid := by
    rw [hpool, VectorPool.elemAt_modifyEl_self _ idx _ hltlen]
  have hHas : (Component.AddEntityPreHook c eid loc).HasDataForEntity eid = true := by
    unfold Component.HasDataForEntity
    rw [hGCDI]
    exact decide_eq_true hne
  have hGCD : (Component.AddEntityPreHook c eid loc).GetComponentData eid
      = some idx := by
    unfold Component.GetComponentData
    dsimp only
    rw [hGCDI]
    rw [if_neg (by rw [hplen]; omega)]
    unfold Component.GetComponentDataAt
    rw [if_neg hne, if_pos (by rw [hplen]; omega)]
  have hRe : ∀ hook, Component.AddEntity hook
      (Component.AddEntityPreHook c eid loc) eid loc =
      (Component.AddEntityPreHook c eid loc, some idx, false) := by
    intro hook
    unfold Component.AddEntity
    rw [hHas]
    show (Component.AddEntityPreHook c eid loc,
      (Component.AddEntityPreHook c eid loc).GetComponentData eid, false) = _
    rw [hGCD]
  exact ⟨idx, hix, hne, hA, hlook, hGCDI, hback, hHas, hGCD, hRe⟩

/-- Claim C6 (amended): when the entity already has data, `AddEntity` returns
the store unchanged with the existing payload and no hook call, for every
hook.  For a fresh entity in a store whose pool has fewer than 65535 slots,
attaching and then re-attaching returns the same non-null payload both times,
the second call invoking no hook and leaving the store unchanged.  (Without
the size bound the slot index can collide with `kInvalidComponentIndex` after
`uint16_t` truncation and idempotency fails.) -/
theorem C6_amended_attach_idempotent (c : Component Nat) (eid : Nat)
    (loc : AllocationLocation) (used free : List Nat)
    (hInv : VectorPool.Inv c.component_data_ used free)
    (hsm : c.component_data_.elements_.length < 65535) :
    (c.HasDataForEntity eid = true →
      ∀ hook, Component.AddEntity hook c eid loc =
        (c, c.GetComponentData eid, false)) ∧
    (c.HasDataForEntity eid = false →
      ∃ payload, payload ≠ none ∧
        Component.AddEntity Component.hookNone c eid loc =
          ((Component.AddEntity Component.hookNone c eid loc).1, payload, true) ∧
        Component.AddEntity Component.hookNone
            (Component.AddEntity Component.hookNone c eid loc).1 eid loc =
          ((Component.AddEntity Component.hookNone c eid loc).1, payload, false)) := by
  refine ⟨?_, ?_⟩
  · intro h1 hook
    unfold Component.AddEntity
    rw [h1]
    rfl
  · intro h0
    obtain ⟨idx, hix, hne, hA, hlook, hGCDI, hback, hHas, hGCD, hRe⟩ :=
      AddEntity_fresh_facts c eid loc used free hInv hsm h0
    refine ⟨some idx, by simp, ?_, ?_⟩
    · rw [hA Component.hookNone]
    · rw [hA Component.hookNone]
      show Component.AddEntity Component.hookNone
          (Component.AddEntityPreHook c eid loc) eid loc =
        (Component.AddEntityPreHook c eid loc, some idx, false)
      exact hRe Component.hookNone

/-- A concrete store for C6: entity 7 attached in slot 4, pool of 6 slots. -/
def c6Comp : Component Nat :=
  { component_data_ := (runOps (T := ComponentData Nat)
      [PoolOp.alloc AllocationLocation.kAddToBack]).getD VectorPool.init,
    component_index_lookup_ := fun k => if k = 7 then some 4 else none }

/-- Witness for C6 (amended): on a small concrete store, re-attaching attached
entity 7 is the identity, and attaching fresh entity 9 twice yields the same
payload with no second hook call. -/
theorem C6_amended_witness :
    VectorPool.Inv c6Comp.component_data_ [4] [] ∧
    c6Comp.component_data_.elements_.length < 65535 ∧
    c6Comp.HasDataForEntity 7 = true ∧
    Component.AddEntity Component.hookNone c6Comp 7 AllocationLocation.kAddToBack
      = (c6Comp, c6Comp.GetComponentData 7, false) ∧
    c6Comp.HasDataForEntity 9 = false ∧
    Component.AddEntity Component.hookNone
        (Component.AddEntity Component.hookNone c6Comp 9
          AllocationLocation.kAddToBack).1 9 AllocationLocation.kAddToBack =
      ((Component.AddEntity Component.hookNone c6Comp 9
          AllocationLocation.kAddToBack).1,
       (Component.AddEntity Component.hookNone c6Comp 9
          AllocationLocation.kAddToBack).2.1, false) := by
  refine ⟨by decide, by decide, by decide, ?_, by decide, ?_⟩
  · exact (C6_amended_attach_idempotent c6Comp 7 AllocationLocation.kAddToBack
      [4] [] (by decide) (by decide)).1 (by decide) Component.hookNone
  · obtain ⟨payload, hpne, h1, h2⟩ :=
      (C6_amended_attach_idempotent c6Comp 9 AllocationLocation.kAddToBack
        [4] [] (by decide) (by decide)).2 (by decide)
    have hp : (Component.AddEntity Component.hookNone c6Comp 9
        AllocationLocation.kAddToBack).2.1 = payload := by
      rw [h1]
    rw [hp]
    exact h2

/-- Claim C10 (amended): during `AddEntity` on a fresh entity in a store whose
pool has fewer than 65535 slots, the index entry and the slot's entity
back-reference are recorded before the `InitEntity` hook runs, so inside the
hook `HasDataForEntity` already returns true and a re-entrant `AddEntity`
returns the already-allocated payload without allocating again or re-invoking
a hook.  (Without the size bound the recorded index can be
`kInvalidComponentIndex`, which the lookup treats as absent.) -/
theorem C10_amended_prehook_visibility (c : Component Nat) (eid : Nat)
    (loc : AllocationLocation) (used free : List Nat)
    (hInv : VectorPool.Inv c.component_data_ used free)
    (hsm : c.component_data_.elements_.length < 65535)
    (h0 : c.HasDataForEntity eid = false) :
    ∃ idx, idx ≠ kInvalidComponentIndex ∧
      (∀ hook, Component.AddEntity hook c eid loc =
        (hook (Component.AddEntityPreHook c eid loc) eid, some idx, true)) ∧
      (Component.AddEntityPreHook c eid loc).component_index_lookup_ eid
        = some idx ∧
      ((Component.AddEntityPreHook c eid loc).component_data_.elemAt
        idx).data.entity = some eid ∧
      (Component.AddEntityPreHook c eid loc).HasDataForEntity eid = true ∧
      (∀ hook, Component.AddEntity hook
          (Component.AddEntityPreHook c eid loc) eid loc =
        (Component.AddEntityPreHook c eid loc, some idx, false)) := by
  obtain ⟨idx, hix, hne, hA, hlook, hGCDI, hback, hHas, hGCD, hRe⟩ :=
    AddEntity_fresh_facts c eid loc used free hInv hsm h0
  exact ⟨idx, hne, hA, hlook, hback, hHas, hRe⟩

/-- A concrete store for C10: entity 7 attached in slot 4, pool of 6 slots. -/
def c10Comp : Component Nat :=
  { component_data_ := (runOps (T := ComponentData Nat)
      [PoolOp.alloc AllocationLocation.kAddToBack]).getD VectorPool.init,
    component_index_lookup_ := fun k => if k = 7 then some 4 else none }

/-- Witness for C10 (amended): attaching fresh entity 9 records slot 5 in the
lookup before the hook, `HasDataForEntity` is already true in the hook state,
and a re-entrant attach returns the same payload without a second hook. -/
theorem C10_amended_witness :
    VectorPool.Inv c10Comp.component_data_ [4] [] ∧
    c10Comp.component_data_.elements_.length < 65535 ∧
    c10Comp.HasDataForEntity 9 = false ∧
    (Component.AddEntityPreHook c10Comp 9
      AllocationLocation.kAddToBack).component_index_lookup_ 9 = some 5 ∧
    (Component.AddEntityPreHook c10Comp 9
      AllocationLocation.kAddToBack).HasDataForEntity 9 = true ∧
    Component.AddEntity Component.hookNone
        (Component.AddEntityPreHook c10Comp 9 AllocationLocation.kAddToBack) 9
        AllocationLocation.kAddToBack =
      (Component.AddEntityPreHook c10Comp 9 AllocationLocation.kAddToBack,
        some 5, false) := by
  obtain ⟨idx, hne, h1, h2, h3, h4, h5⟩ :=
    C10_amended_prehook_visibility c10Comp 9 AllocationLocation.kAddToBack [4] []
      (by decide) (by decide) (by decide)
  have h6 : (Component.AddEntityPreHook c10Comp 9
      AllocationLocation.kAddToBack).component_index_lookup_ 9 = some 5 := by
    decide
  have hidx : idx = 5 := by
    rw [h6] at h2
    exact (Option.some.inj h2).symm
  subst hidx
  exact ⟨by decide, by decide, by decide, h2, h4, h5 Component.hookNone⟩

/-- Non-sentinel slot `4 + k` of the 65536-slot store: the free list runs
65535, 65534, ..., 4 from the head sentinel. -/
def filler (k : Nat) : VectorPoolElement (ComponentData Nat) :=
  { data := { entity := none, data := 0 },
    next := if k = 0 then 3 else 3 + k,
    prev := if k = 65531 then 2 else 5 + k,
    unique_id := kInvalidId }

/-- The four sentinel slots of the 65536-slot store: empty used list, free
list headed by slot 65535 and ending at slot 4. -/
def monsterS : List (VectorPoolElement (ComponentData Nat)) :=
  [{ data := { entity := none, data := 0 }, next := 1, prev := kOutOfBounds,
      unique_id := kInvalidId },
   { data := { entity := none, data := 0 }, next := kOutOfBounds, prev := 0,
      unique_id := kInvalidId },
   { data := { entity := none, data := 0 }, next := 65535, prev := kOutOfBounds,
      unique_id := kInvalidId },
   { data := { entity := none, data := 0 }, next := kOutOfBounds, prev := 4,
      unique_id := kInvalidId }]

/-- A pool of 65536 slots (the layout `Reserve(65536)` would build, with the
free list prepend order making slot 65535 the next slot to be allocated). -/
def monsterPool : VectorPool (ComponentData Nat) :=
  { elements_ := monsterS ++ (List.range 65532).map filler,
    active_count_ := 0,
    next_unique_id_ := 1 }

/-- An empty store over the 65536-slot pool. -/
def monsterComp : Component Nat :=
  { component_data_ := monsterPool, component_index_lookup_ := fun _ => none }

theorem monsterPool_length : monsterPool.elements_.length = 65536 := by
  show (monsterS ++ (List.range 65532).map filler).length = 65536
  rw [List.length_append, List.length_map, List.length_range]
  have h4 : monsterS.length = 4 := rfl
  omega

theorem monster_elemAt_last : monsterPool.elemAt 65535 = filler 65531 := by
  show ((monsterS ++ (List.range 65532).map filler).get? 65535).getD
    (VectorPoolElement.mkDefault (ComponentData Nat)) = filler 65531
  rw [List.get?_append_right (by norm_num [monsterS])]
  have h4 : monsterS.length = 4 := rfl
  rw [h4]
  show (((List.range 65532).map filler).get? 65531).getD
    (VectorPoolElement.mkDefault (ComponentData Nat)) = filler 65531
  rw [List.get?_map, List.get?_range (by norm_num)]
  rfl

/-- Counterexample to claim C10 as stated: with the 65536-slot store, the
fresh entity's slot is 65535, whose `uint16_t` truncation equals
`kInvalidComponentIndex`; the index entry recorded before the `InitEntity`
hook is exactly that reserved value, so inside the hook `HasDataForEntity`
still returns false. -/
theorem C10_counterexample_sentinel_collision :
    (Component.AddEntityPreHook monsterComp 7
        AllocationLocation.kAddToBack).component_index_lookup_ 7 =
      some kInvalidComponentIndex ∧
    (Component.AddEntityPreHook monsterComp 7
        AllocationLocation.kAddToBack).HasDataForEntity 7 = false :=
  ⟨rfl, rfl⟩

/-- Counterexample to claim C6 as stated: on the 65536-slot store, attaching
entity 7 allocates slot 65535 and returns payload index 65535 =
`kInvalidComponentIndex`; the store then still reports no data for entity 7,
and a second `AddEntity` allocates a different slot (65534), invoking the
`InitEntity` hook again and returning a different payload. -/
theorem C6_counterexample_sentinel_collision :
    monsterComp.HasDataForEntity 7 = false ∧
    (Component.AddEntity Component.hookNone monsterComp 7
        AllocationLocation.kAddToBack).2 = (some kInvalidComponentIndex, true) ∧
    (Component.AddEntity Component.hookNone monsterComp 7
        AllocationLocation.kAddToBack).1.HasDataForEntity 7 = false ∧
    (Component.AddEntity Component.hookNone
        (Component.AddEntity Component.hookNone monsterComp 7
          AllocationLocation.kAddToBack).1 7 AllocationLocation.kAddToBack).2 =
      (some 65534, true) := by
  have hA1 : Component.AddEntity Component.hookNone monsterComp 7
      AllocationLocation.kAddToBack =
      (Component.AddEntityPreHook monsterComp 7 AllocationLocation.kAddToBack,
        some kInvalidComponentIndex, true) := rfl
  have hpreHD : (Component.AddEntityPreHook monsterComp 7
      AllocationLocation.kAddToBack).HasDataForEntity 7 = false := rfl
  have hprev : (monsterPool.elemAt 65535).prev = 2 := by
    rw [monster_elemAt_last]
    rfl
  have hnext : (monsterPool.elemAt 65535).next = 65534 := by
    rw [monster_elemAt_last]
    rfl
  have hfff : (monsterPool.RemoveFromList 65535).elemAt kFirstFree =
      { monsterPool.elemAt kFirstFree with next := 65534 } := by
    have h := VectorPool.elemAt_RemoveFromList_prevEl monsterPool 65535
      (by rw [hprev, monsterPool_length]; norm_num)
      (by rw [hprev, hnext]; norm_num)
    rw [hprev, hnext] at h
    exact h
  have hplu : ((monsterPool.RemoveFromList 65535).elemAt kLastUsed).prev = 0 := by
    rw [VectorPool.elemAt_RemoveFromList_ne monsterPool 65535 kLastUsed
      (by rw [hprev]; decide) (by rw [hnext]; decide)]
    rfl
  have hsp : (VectorPool.spliceUsed (monsterPool.RemoveFromList 65535)
      AllocationLocation.kAddToBack 65535).elemAt kFirstFree =
      (monsterPool.RemoveFromList 65535).elemAt kFirstFree := by
    show ((monsterPool.RemoveFromList 65535).AddToListBack 65535
      kLastUsed).elemAt kFirstFree = _
    exact VectorPool.elemAt_AddToListBack_ne _ 65535 kLastUsed kFirstFree
      (by rw [hplu]; decide) (by decide) (by decide)
  have hGNE1 : monsterPool.GetNewElement AllocationLocation.kAddToBack =
      (VectorPool.finishAlloc (VectorPool.spliceUsed
          (monsterPool.RemoveFromList 65535) AllocationLocation.kAddToBack 65535)
        65535,
        { hasContainer := true, index_ := 65535,
          unique_id_ := monsterPool.next_unique_id_ }) :=
    VectorPool.GetNewElement_reuse monsterPool AllocationLocation.kAddToBack
      65535 rfl (by decide)
  have hpoolpre : (Component.AddEntityPreHook monsterComp 7
      AllocationLocation.kAddToBack).component_data_ =
      (monsterPool.GetNewElement AllocationLocation.kAddToBack).1.modifyEl 65535
        (fun el => { el with data := { el.data with entity := some 7 } }) := rfl
  have hc1ff : ((Component.AddEntityPreHook monsterComp 7
      AllocationLocation.kAddToBack).component_data_.elemAt kFirstFree).next
      = 65534 := by
    rw [hpoolpre, hGNE1]
    rw [VectorPool.elemAt_modifyEl_ne _ 65535 kFirstFree _ (by decide)]
    rw [VectorPool.elemAt_finishAlloc_ne _ 65535 kFirstFree (by decide)]
    rw [hsp, hfff]
  have hGNE2 : (Component.AddEntityPreHook monsterComp 7
      AllocationLocation.kAddToBack).component_data_.GetNewElement
      AllocationLocation.kAddToBack =
      (VectorPool.finishAlloc (VectorPool.spliceUsed
          ((Component.AddEntityPreHook monsterComp 7
            AllocationLocation.kAddToBack).component_data_.RemoveFromList 65534)
          AllocationLocation.kAddToBack 65534)
        65534,
        { hasContainer := true, index_ := 65534,
          unique_id_ := (Component.AddEntityPreHook monsterComp 7
            AllocationLocation.kAddToBack).component_data_.next_unique_id_ }) :=
    VectorPool.GetNewElement_reuse _ AllocationLocation.kAddToBack 65534 hc1ff
      (by decide)
  have hidx2 : ((Component.AddEntityPreHook monsterComp 7
      AllocationLocation.kAddToBack).component_data_.GetNewElement
      AllocationLocation.kAddToBack).2.index_ = 65534 := by
    rw [hGNE2]
  refine ⟨rfl, by rw [hA1], by rw [hA1]; exact hpreHD, ?_⟩
  rw [hA1]
  show (Component.AddEntity Component.hookNone
    (Component.AddEntityPreHook monsterComp 7 AllocationLocation.kAddToBack) 7
    AllocationLocation.kAddToBack).2 = (some 65534, true)
  unfold Component.AddEntity
  rw [hpreHD]
  rw [if_neg (by decide)]
  show (some (((Component.AddEntityPreHook monsterComp 7
      AllocationLocation.kAddToBack).component_data_.GetNewElement
      AllocationLocation.kAddToBack).2.index_ % componentIndexMod), true) =
    (some 65534, true)
  rw [hidx2]
  rfl

end Corgi
